import Mathlib

/-!
Verification of the predictive pipeline of `src/streamlit_app.py` (a crime
analysis dashboard).  The Python source is shallowly embedded:

* pandas DataFrames become Lean lists of record structures;
* float columns become `ℚ` (the cleaning layer additionally models the IEEE
  special values `inf`, `-inf` and `NaN`, because `pd.to_numeric` /`dropna`
  distinguish them: `dropna` removes `NaN` but keeps infinities);
* `pd.to_numeric(errors='coerce')` string parsing and `astype(str)` rendering
  of numbers are abstracted as parameters (`parse`, `showNum`): every theorem
  holds for an arbitrary choice, matching any concrete pandas behaviour;
* `sklearn.preprocessing.LabelEncoder` is embedded exactly: `fit` stores the
  sorted deduplicated class list (`numpy.unique`), `transform` looks an input
  up and fails on values unseen at fit time, `inverse_transform` indexes into
  the class list and fails on out-of-range ids;
* `sklearn.preprocessing.StandardScaler` stores per-column mean and scale;
  the floating point square root inside `fit` is abstracted as a parameter
  `sq : ℚ → ℚ` (its value is irrelevant to every claim proved here), and
  sklearn's `_handle_zeros_in_scale` (zero std ↦ 1) is kept.  `fit` runs
  `check_array`, which raises both on a non-finite entry — a reachable
  path, since the cleaning keeps infinities — and on a 0-sample matrix,
  so the coordinate columns cross the fit boundary as possibly infinite
  values (`NumVal`) and are validated there;
* `RandomForestClassifier.fit` validates its input the same way
  (`check_array` rejects an empty sample matrix and non-finite entries)
  and otherwise produces a fitted predictor; the learned decision function
  itself is abstracted as a parameter `fitCore`, since no claim depends on
  which class is predicted.  sklearn accepts a single-class target
  (`check_classification_targets` allows it), so a lone target class is
  not a fatal condition at fit time;
* `np.random.uniform(lo, hi, n)` draws from the process-wide global
  generator.  The generator is abstracted as a state-transition function
  `step` plus an output function `frac` whose values are guaranteed to lie
  in `[0, 1)` (numpy's `random_sample` contract); a draw is
  `lo + (hi - lo) * frac state`.  The source never seeds this generator.
-/

namespace CrimeApp

/-! ### Python string primitives used by `load_data` (line 34 and 37)

`str.strip` removes leading and trailing whitespace, `str.lower` lowercases
(modelled on the ASCII range, which covers every column name of the data
set), `str.replace(' ', '_')` rewrites spaces to underscores. -/

def wsChar (c : Char) : Bool := c.isWhitespace

/-- Leading-whitespace removal (the left half of Python `str.strip`). -/
def stripLeadChars (l : List Char) : List Char := l.dropWhile wsChar

/-- Trailing-whitespace removal (the right half of Python `str.strip`). -/
def stripTrailChars (l : List Char) : List Char :=
  (l.reverse.dropWhile wsChar).reverse

/-- Python `str.strip` on the underlying character list. -/
def pyStripChars (l : List Char) : List Char := stripTrailChars (stripLeadChars l)

/-- Python `str.strip`. -/
def pyStrip (s : String) : String := ⟨pyStripChars s.data⟩

/-- Python `str.replace(' ', '_')` acts characterwise for a 1-char pattern. -/
def replChar (c : Char) : Char := if c = ' ' then '_' else c

/-- Column-name normalisation of line 34:
`df.columns.str.strip().str.lower().str.replace(' ', '_')`. -/
def normColumnName (s : String) : String :=
  ⟨((pyStripChars s.data).map Char.toLower).map replChar⟩

/-! ### The cleaning layer (`load_data`, lines 34-40) -/

/-- A numeric pandas cell after `pd.to_numeric`: a finite float (as `ℚ`) or
an IEEE infinity.  `NaN` is identified with the missing marker, which is how
`dropna`/`isna` treat it. -/
inductive NumVal where
  | fin (q : ℚ)
  | inf
  | ninf
  deriving DecidableEq, Repr

/-- Finiteness of a numeric value — the test `check_array`'s non-finite
scan performs on every entry it validates. -/
def NumVal.isFin : NumVal → Bool
  | .fin _ => true
  | _ => false

/-- The rational a finite value carries.  The `0` default of the infinite
constructors is only ever read behind a finiteness guard: every fit step
validates its columns with `check_array` before computing with them. -/
def NumVal.finQ : NumVal → ℚ
  | .fin q => q
  | _ => 0

/-- A raw pandas cell: numeric, string, or missing (`NaN`/`None`). -/
inductive CellVal where
  | num (n : NumVal)
  | str (s : String)
  | missing
  deriving DecidableEq, Repr

/-- One row of the raw incident table, with the columns `load_data` and
`train_model` touch (names already in normalised form). -/
structure RawRow where
  crime_id : CellVal
  crime_type : CellVal
  latitude : CellVal
  longitude : CellVal
  location : CellVal
  reported_by : CellVal
  falls_within : CellVal
  last_outcome_category : CellVal
  lsoa_code : CellVal
  lsoa_name : CellVal
  deriving DecidableEq, Repr

/-- `pd.to_numeric(col, errors='coerce')` on one cell: numeric values pass
through unchanged (infinities included), strings go through the pandas
number parser (abstracted as `parse`; unparseable strings become `NaN`,
i.e. missing), missing stays missing. -/
def toNumericCell (parse : String → Option NumVal) : CellVal → CellVal
  | .num n => .num n
  | .str s => match parse s with
    | some n => .num n
    | none => .missing
  | .missing => .missing

/-- `astype(str)` on one cell: strings pass through, numbers are rendered
(abstracted as `showNum`), `NaN` renders as the string `"nan"`. -/
def cellToString (showNum : NumVal → String) : CellVal → String
  | .num n => showNum n
  | .str s => s
  | .missing => "nan"

/-- Lines 35-37: coerce the two coordinate columns to numeric and
stringify-and-strip the location column. -/
def coerceRow (parse : String → Option NumVal) (showNum : NumVal → String)
    (r : RawRow) : RawRow :=
  { r with
    longitude := toNumericCell parse r.longitude
    latitude := toNumericCell parse r.latitude
    location := .str (pyStrip (cellToString showNum r.location)) }

/-- Line 38: `dropna(subset=['crime_id', 'crime_type', 'latitude',
'longitude'])` keeps a row iff none of the four cells is missing. -/
def rowComplete (r : RawRow) : Bool :=
  !(r.crime_id == .missing) && !(r.crime_type == .missing) &&
    !(r.latitude == .missing) && !(r.longitude == .missing)

/-- Line 39: `drop_duplicates(subset=['crime_id'])` keeps the first row of
each identifier; `seen` accumulates identifiers already kept. -/
def dedupById (seen : List CellVal) : List RawRow → List RawRow
  | [] => []
  | r :: rs =>
    if r.crime_id ∈ seen then dedupById seen rs
    else r :: dedupById (r.crime_id :: seen) rs

/-- The cleaning transformation of `load_data` (lines 34-40), after the
column renaming: coerce each row, drop incomplete rows, drop duplicate
identifiers (`reset_index(drop=True)` keeps the remaining order). -/
def cleanRows (parse : String → Option NumVal) (showNum : NumVal → String)
    (rows : List RawRow) : List RawRow :=
  dedupById [] ((rows.map (coerceRow parse showNum)).filter rowComplete)

/-! ### The model layer (`train_model`, lines 43-63)

At this point in the pipeline the coordinate columns are numeric floats
that are never `NaN` — but may still be IEEE infinities, because the
`dropna` of the cleaning removes only `NaN` — so they are carried as
`NumVal`; the categorical columns are strings; the two LSOA columns may
still be missing, which is what the `dropna` of line 44 filters on. -/

/-- One row of the cleaned dataset as consumed by `train_model`. -/
structure MRow where
  longitude : NumVal
  latitude : NumVal
  reported_by : String
  falls_within : String
  last_outcome_category : String
  crime_type : String
  lsoa_code : Option String
  lsoa_name : Option String
  deriving DecidableEq, Repr

/-- Line 44: `df.dropna(subset=['lsoa_code', 'lsoa_name'])` — the training
subset. -/
def dfModelRows (rows : List MRow) : List MRow :=
  rows.filter (fun r => r.lsoa_code.isSome && r.lsoa_name.isSome)

/-- The longitude column viewed as the rational values the numeric
pipeline computes with.  Wherever this view is used a fit has already
passed `check_array`'s finiteness validation on the column (or, for the
bounding box of lines 176-177, `train_model` has already returned, which
required it), so `NumVal.finQ` reads off exactly the carried value. -/
def lonsOf (dm : List MRow) : List ℚ := (dm.map MRow.longitude).map NumVal.finQ

/-- The latitude column, likewise. -/
def latsOf (dm : List MRow) : List ℚ := (dm.map MRow.latitude).map NumVal.finQ

/-- `value_counts()[v]`: number of occurrences of `v`. -/
def countS (l : List String) (v : String) : Nat := l.countP (· == v)

/-- Lines 45-46: a category with fewer than 1000 training occurrences is
rewritten to the sentinel `"Other"`, any other category is kept. -/
def collapseOne (l : List String) (x : String) : String :=
  if countS l x < 1000 then "Other" else x

/-- Line 46 applied to every record of the training subset: only the
`crime_type` field is rewritten, nothing is dropped. -/
def collapseRows (rows : List MRow) : List MRow :=
  rows.map (fun r =>
    { r with crime_type := collapseOne (rows.map MRow.crime_type) r.crime_type })

/-! ### `sklearn.preprocessing.LabelEncoder`

`fit` stores `numpy.unique` of the input — the sorted list of distinct
values; `transform` maps a value to its index in that list and raises on a
value that was not present at fit time; `inverse_transform` indexes into
the list and raises on an out-of-range id.  numpy compares strings by code
point, embedded here as an executable lexicographic order. -/

/-- Code-point lexicographic order on character lists. -/
def lexLe : List Char → List Char → Bool
  | [], _ => true
  | _ :: _, [] => false
  | a :: as, b :: bs =>
    if a.toNat < b.toNat then true
    else if b.toNat < a.toNat then false
    else lexLe as bs

/-- numpy's string order. -/
def strLeB (a b : String) : Bool := lexLe a.data b.data

/-- Ordered insertion for `sortS`. -/
def insLe (v : String) : List String → List String
  | [] => [v]
  | a :: as => if strLeB v a then v :: a :: as else a :: insLe v as

/-- Sorting by code point (insertion sort; only the sortedness of the
result matters, which any correct sort produces). -/
def sortS (l : List String) : List String := l.foldr insLe []

/-- `numpy.unique`: sorted distinct values — the fitted `classes_`. -/
def leFit (vals : List String) : List String := (sortS vals).dedup

/-- Index of `v` in the fitted class list. -/
def idxOf : List String → String → Option Nat
  | [], _ => none
  | c :: cs, v => if c == v then some 0 else (idxOf cs v).map (· + 1)

/-- The error sklearn raises for a label unseen at fit time. -/
def unseenMsg : String := "y contains previously unseen labels"

/-- `LabelEncoder.transform` on one value: the fitted code, or the
schema-drift error for a value unseen at fit time.  No code is ever
invented. -/
def leTransform (classes : List String) (v : String) : Except String Nat :=
  match idxOf classes v with
  | some i => .ok i
  | none => .error unseenMsg

/-- `LabelEncoder.inverse_transform` on one id. -/
def leInverse (classes : List String) (i : Nat) : Except String String :=
  match classes[i]? with
  | some v => .ok v
  | none => .error unseenMsg

/-- `fit_transform`: codes of the fit data themselves (every value is in
the fitted class list, so the `getD` default is never used). -/
def leFitTransform (vals : List String) : List Nat :=
  vals.map (fun v => (idxOf (leFit vals) v).getD 0)

/-- Element-wise `Except` traversal: sklearn's vectorised `transform` /
`inverse_transform` fail as soon as any element fails. -/
def mapME (f : α → Except String β) : List α → Except String (List β)
  | [] => .ok []
  | a :: as =>
    match f a with
    | .error e => .error e
    | .ok b =>
      match mapME f as with
      | .error e => .error e
      | .ok bs => .ok (b :: bs)

/-! ### `sklearn.preprocessing.StandardScaler` (lines 57-58) -/

/-- The fitted scaler state: per-column mean and scale, stored at fit time
and reused unchanged by every later `transform`. -/
structure ScalerState where
  meanLon : ℚ
  meanLat : ℚ
  scaleLon : ℚ
  scaleLat : ℚ
  deriving DecidableEq, Repr

def qsum (l : List ℚ) : ℚ := l.foldr (· + ·) 0

def qmean (l : List ℚ) : ℚ := qsum l / l.length

/-- Population variance (`ddof = 0`), as `StandardScaler` computes it. -/
def qvar (l : List ℚ) : ℚ := qsum (l.map (fun x => (x - qmean l) ^ 2)) / l.length

/-- sklearn `_handle_zeros_in_scale`: a zero standard deviation is replaced
by 1 so constant columns transform to 0. -/
def fixZero (s : ℚ) : ℚ := if s = 0 then 1 else s

/-- The state `StandardScaler.fit` stores for the two coordinate columns;
`sq` abstracts the floating point square root. -/
def scalerCore (sq : ℚ → ℚ) (lons lats : List ℚ) : ScalerState :=
  { meanLon := qmean lons
    meanLat := qmean lats
    scaleLon := fixZero (sq (qvar lons))
    scaleLat := fixZero (sq (qvar lats)) }

/-- The error `sklearn.utils.check_array` raises on an empty matrix. -/
def emptyMsg : String := "Found array with 0 sample(s)"

/-- The error `check_array` raises on a non-finite entry. -/
def nonFiniteMsg : String := "Input contains infinity or a value too large"

/-- `StandardScaler.fit`: `check_array` validation first — a non-finite
entry in either coordinate column is fatal (and reachable, since cleaning
keeps infinities), as is a 0-sample matrix, in `check_array`'s order
(the finiteness scan precedes `ensure_min_samples`) — then the fitted
state over the now guaranteed-finite values. -/
def scalerFit (sq : ℚ → ℚ) (lons lats : List NumVal) : Except String ScalerState :=
  if !(lons.all NumVal.isFin && lats.all NumVal.isFin) then .error nonFiniteMsg
  else if lons.isEmpty then .error emptyMsg
  else .ok (scalerCore sq (lons.map NumVal.finQ) (lats.map NumVal.finQ))

/-- `StandardScaler.transform` of one value: reuses the fitted mean and
scale, never refits. -/
def scaleVal (mean scale x : ℚ) : ℚ := (x - mean) / scale

/-! ### `RandomForestClassifier` (lines 61-62) -/

/-- An encoded feature row in the column order of `X`:
scaled longitude, scaled latitude, and the three categorical codes. -/
abbrev EncRow := ℚ × ℚ × Nat × Nat × Nat

/-- A fitted forest: an immutable predictor from encoded rows to encoded
class ids.  The learned decision function is abstract (`fitCore` below);
no claim depends on which class it picks. -/
structure RFModel where
  predict : EncRow → Nat

instance : Inhabited RFModel := ⟨⟨fun _ => 0⟩⟩

/-- `RandomForestClassifier.fit`: its `check_array` raises on an empty
sample matrix and on non-finite entries; otherwise fitting succeeds — in
particular sklearn accepts a target with a single distinct class
(`check_classification_targets` places no lower bound on the number of
classes, and `class_weight='balanced'` assigns the lone class weight 1).
In `train_model` this call can only ever see finite entries: a non-finite
coordinate already made `StandardScaler.fit` raise at line 58 (which runs
before line 62), and z-scoring finite rationals yields finite rationals,
so the matrix type `List EncRow` (over `ℚ`) carries the finiteness the
non-finite scan would re-check and only the 0-sample condition remains
observable at this call site. -/
def rfFit (fitCore : List EncRow → List Nat → RFModel)
    (X : List EncRow) (y : List Nat) : Except String RFModel :=
  if X.isEmpty then .error emptyMsg else .ok (fitCore X y)

/-! ### `train_model` (lines 43-63) -/

/-- The tuple `train_model` returns: the forest, the fitted target encoder,
the fitted scaler, the three fitted feature encoders, and the training
subset `df_model` (the feature frame `X` is recoverable from it). -/
structure TrainOut where
  rf : RFModel
  leTarget : List String
  scaler : ScalerState
  leRB : List String
  leFW : List String
  leLOC : List String
  dfModel : List MRow

instance : Inhabited TrainOut :=
  ⟨⟨default, [], ⟨0, 0, 1, 1⟩, [], [], [], []⟩⟩

/-- The encoded feature matrix `X_enc` of lines 51-58: per-column label
codes and z-scored coordinates. -/
def encTrain (sq : ℚ → ℚ) (dm : List MRow) : List EncRow :=
  let sc := scalerCore sq (lonsOf dm) (latsOf dm)
  let rbC := leFit (dm.map MRow.reported_by)
  let fwC := leFit (dm.map MRow.falls_within)
  let locC := leFit (dm.map MRow.last_outcome_category)
  dm.map (fun r =>
    (scaleVal sc.meanLon sc.scaleLon (NumVal.finQ r.longitude),
     scaleVal sc.meanLat sc.scaleLat (NumVal.finQ r.latitude),
     (idxOf rbC r.reported_by).getD 0,
     (idxOf fwC r.falls_within).getD 0,
     (idxOf locC r.last_outcome_category).getD 0))

/-- The value `train_model` returns when no fit step raises. -/
def trainOutCore (sq : ℚ → ℚ) (fitCore : List EncRow → List Nat → RFModel)
    (rows : List MRow) : TrainOut :=
  let dm := collapseRows (dfModelRows rows)
  { rf := fitCore (encTrain sq dm) (leFitTransform (dm.map MRow.crime_type))
    leTarget := leFit (dm.map MRow.crime_type)
    scaler := scalerCore sq (lonsOf dm) (latsOf dm)
    leRB := leFit (dm.map MRow.reported_by)
    leFW := leFit (dm.map MRow.falls_within)
    leLOC := leFit (dm.map MRow.last_outcome_category)
    dfModel := dm }

/-- `train_model` itself: restrict to the training subset (line 44),
collapse rare categories (lines 45-46), fit the encoders and the scaler
(lines 51-58, where `check_array` makes `StandardScaler.fit` raise on a
non-finite coordinate or an empty subset), encode the target (lines
59-60) and fit the forest (lines 61-62, where an empty matrix makes `fit`
raise).  A raise aborts the run with no model. -/
def trainModel (sq : ℚ → ℚ) (fitCore : List EncRow → List Nat → RFModel)
    (rows : List MRow) : Except String TrainOut :=
  let dm := collapseRows (dfModelRows rows)
  match scalerFit sq (dm.map MRow.longitude) (dm.map MRow.latitude) with
  | .error e => .error e
  | .ok _ =>
    match rfFit fitCore (encTrain sq dm) (leFitTransform (dm.map MRow.crime_type)) with
    | .error e => .error e
    | .ok _ => .ok (trainOutCore sq fitCore rows)

/-! ### The future scenario loop (`main`, lines 176-194) -/

/-- The process-wide numpy generator, abstracted: `step` advances the
hidden state, `frac` reads a uniform variate in `[0, 1)` off a state
(numpy's `random_sample` contract).  The source never calls `np.random.seed`,
so the loop consumes whatever state the generator happens to hold. -/
structure RandGen where
  step : Nat → Nat
  frac : Nat → ℚ
  frac_nonneg : ∀ s, 0 ≤ frac s
  frac_lt_one : ∀ s, frac s < 1

/-- `np.random.uniform(lo, hi, n)`: `n` successive draws from the global
generator, each `lo + (hi - lo) * u` with `u ∈ [0, 1)`; returns the draws
and the advanced generator state. -/
def uniformDraws (g : RandGen) (lo hi : ℚ) : Nat → Nat → List ℚ × Nat
  | 0, s => ([], s)
  | n + 1, s =>
    let s' := g.step s
    let (rest, sF) := uniformDraws g lo hi n s'
    ((lo + (hi - lo) * g.frac s') :: rest, sF)

/-- `Series.min()` (the `[]` default is unreachable in the pipeline: an
empty training subset already aborted `train_model`). -/
def qminL : List ℚ → ℚ
  | [] => 0
  | a :: as => as.foldl min a

/-- `Series.max()`. -/
def qmaxL : List ℚ → ℚ
  | [] => 0
  | a :: as => as.foldl max a

/-- `Series.mode()`: the distinct values of maximal frequency, sorted. -/
def pdModeList (l : List String) : List String :=
  let cs := leFit l
  let mx := (cs.map (countS l)).foldr max 0
  cs.filter (fun v => countS l v == mx)

/-- `Series.mode()[0]`: the smallest modal value; indexing an empty mode
series raises. -/
def pdModeHead (l : List String) : Except String String :=
  match pdModeList l with
  | [] => .error "index 0 is out of bounds"
  | v :: _ => .ok v

/-- One synthetic future incident, in its final state at line 193.
`lonSampled`/`latSampled` are the coordinates drawn at lines 180-181;
`longitude`/`latitude` are the values the frame holds after line 190
overwrote the columns with their scaled versions; the three categorical
fields hold the encoder codes computed at lines 185-187. -/
structure FutRec where
  lonSampled : ℚ
  latSampled : ℚ
  longitude : ℚ
  latitude : ℚ
  reported_by : Nat
  falls_within : Nat
  last_outcome_category : Nat
  simulated_month : Nat
  predicted_crime_type : String
  deriving DecidableEq, Repr

/-- The encoded feature row of one synthetic record as passed to
`rf.predict` at line 191 (coordinates scaled at line 190, categorical codes
from lines 185-187). -/
def encOfRec (st : TrainOut) (c : (ℚ × ℚ) × ((Nat × Nat) × Nat)) : EncRow :=
  (scaleVal st.scaler.meanLon st.scaler.scaleLon c.1.1,
   scaleVal st.scaler.meanLat st.scaler.scaleLat c.1.2,
   c.2.1.1, c.2.1.2, c.2.2)

/-- One assembled synthetic record of the batch frame `df_f` in its final
state (lines 182-193). -/
def mkFutRec (st : TrainOut) (m : Nat) (c : (ℚ × ℚ) × ((Nat × Nat) × Nat))
    (cat : String) : FutRec :=
  { lonSampled := c.1.1
    latSampled := c.1.2
    longitude := scaleVal st.scaler.meanLon st.scaler.scaleLon c.1.1
    latitude := scaleVal st.scaler.meanLat st.scaler.scaleLat c.1.2
    reported_by := c.2.1.1
    falls_within := c.2.1.2
    last_outcome_category := c.2.2
    simulated_month := m
    predicted_crime_type := cat }

/-- The body of one iteration of the period loop (lines 180-193) for month
`m`, starting from generator state `s0`: sample 5000 longitudes then 5000
latitudes from the training bounding box, encode the modal categorical
context (any encoder failure aborts, as in the source), scale the
coordinates with the fitted scaler, predict, inverse-transform the
predicted ids, and assemble the batch.  Returns the batch and the advanced
generator state.  The bounding box of lines 176-177 is computed over the
training subset's carried rational coordinates (`lonsOf`/`latsOf`): the
loop only runs after `train_model` returned, which required every
training coordinate to be finite. -/
def makeBatch (g : RandGen) (st : TrainOut) (m : Nat) (s0 : Nat) :
    Except String (List FutRec × Nat) :=
  match uniformDraws g (qminL (lonsOf st.dfModel))
    (qmaxL (lonsOf st.dfModel)) 5000 s0 with
  | (lons, s1) =>
    match uniformDraws g (qminL (latsOf st.dfModel))
      (qmaxL (latsOf st.dfModel)) 5000 s1 with
    | (lats, s2) =>
      match pdModeHead (st.dfModel.map MRow.reported_by) with
      | .error e => .error e
      | .ok rbM =>
        match mapME (leTransform st.leRB) (List.replicate 5000 rbM) with
        | .error e => .error e
        | .ok rbCodes =>
          match pdModeHead (st.dfModel.map MRow.falls_within) with
          | .error e => .error e
          | .ok fwM =>
            match mapME (leTransform st.leFW) (List.replicate 5000 fwM) with
            | .error e => .error e
            | .ok fwCodes =>
              match pdModeHead (st.dfModel.map MRow.last_outcome_category) with
              | .error e => .error e
              | .ok locM =>
                match mapME (leTransform st.leLOC) (List.replicate 5000 locM) with
                | .error e => .error e
                | .ok locCodes =>
                  match mapME (leInverse st.leTarget)
                      (((lons.zip lats).zip
                        ((rbCodes.zip fwCodes).zip locCodes)).map
                          (fun c => st.rf.predict (encOfRec st c))) with
                  | .error e => .error e
                  | .ok cats =>
                    .ok (List.zipWith (mkFutRec st m)
                      ((lons.zip lats).zip ((rbCodes.zip fwCodes).zip locCodes))
                        cats, s2)

/-- One iteration of `for m in range(1, 7)` threaded through the running
`future_list` accumulator and generator state; an earlier raise (or one in
this iteration) aborts the loop. -/
def periodStep (g : RandGen) (st : TrainOut) (m : Nat)
    (acc : Except String (List FutRec × Nat)) :
    Except String (List FutRec × Nat) :=
  acc.bind (fun p => (makeBatch g st m p.2).map (fun q => (p.1 ++ q.1, q.2)))

/-- The period loop over a month list, accumulating the batches in order
(what `future_list` holds before `pd.concat`). -/
def periodLoop (g : RandGen) (st : TrainOut) (months : List Nat) (s : Nat) :
    Except String (List FutRec × Nat) :=
  months.foldl (fun acc m => periodStep g st m acc) (.ok ([], s))

/-- `fut_df`: the concatenated future-incident collection of line 194
(months 1 to 6, `pd.concat(..., ignore_index=True)`). -/
def futDF (g : RandGen) (st : TrainOut) (s : Nat) : Except String (List FutRec) :=
  match periodLoop g st [1, 2, 3, 4, 5, 6] s with
  | .error e => .error e
  | .ok (l, _) => .ok l

/-! ### The aggregator (lines 216, 228) -/

/-- `fut_df.groupby('simulated_month').size()` at one month. -/
def countMonth (l : List FutRec) (m : Nat) : Nat :=
  l.countP (fun r => r.simulated_month == m)

/-- One cell of the `simulated_month × predicted_crime_type` pivot of line
216 (`unstack(fill_value=0)` makes an absent pair count 0). -/
def pivotEntry (l : List FutRec) (m : Nat) (c : String) : Nat :=
  l.countP (fun r => r.simulated_month == m && r.predicted_crime_type == c)

/-- The sum of one pivot row over all predicted categories (the pivot's
columns are the distinct predicted categories of the whole collection). -/
def pivotRowSum (l : List FutRec) (m : Nat) : Nat :=
  ∑ c ∈ (l.map FutRec.predicted_crime_type).toFinset, pivotEntry l m c

/-! ## Supporting lemmas -/

theorem mem_insLe {x v : String} {l : List String} :
    x ∈ insLe v l ↔ x = v ∨ x ∈ l := by
  induction l with
  | nil => simp [insLe]
  | cons a as ih =>
    by_cases h : strLeB v a
    · simp [insLe, h]
    · simp [insLe, h, ih]
      tauto

theorem mem_sortS {x : String} {l : List String} : x ∈ sortS l ↔ x ∈ l := by
  induction l with
  | nil => simp [sortS]
  | cons a as ih =>
    show x ∈ insLe a (sortS as) ↔ _
    rw [mem_insLe, ih]
    simp

theorem mem_leFit {x : String} {vals : List String} :
    x ∈ leFit vals ↔ x ∈ vals := by
  rw [leFit, List.mem_dedup, mem_sortS]

theorem idxOf_eq_none {cs : List String} {v : String} (h : v ∉ cs) :
    idxOf cs v = none := by
  induction cs with
  | nil => rfl
  | cons c cs ih =>
    simp only [List.mem_cons, not_or] at h
    simp [idxOf, Ne.symm h.1, ih h.2, beq_iff_eq]

theorem idxOf_mem {cs : List String} {v : String} (h : v ∈ cs) :
    ∃ i, idxOf cs v = some i ∧ cs[i]? = some v := by
  induction cs with
  | nil => cases h
  | cons c cs ih =>
    by_cases hc : c = v
    · exact ⟨0, by simp [idxOf, hc], by simp [hc]⟩
    · have hv : v ∈ cs := by
        rcases List.mem_cons.mp h with h' | h'
        · exact absurd h'.symm hc
        · exact h'
      obtain ⟨i, hi, hg⟩ := ih hv
      exact ⟨i + 1, by simp [idxOf, hc, hi, beq_iff_eq], by simpa using hg⟩

theorem leTransform_ok_of_mem {vals : List String} {v : String} (h : v ∈ vals) :
    ∃ i, leTransform (leFit vals) v = .ok i ∧ (leFit vals)[i]? = some v := by
  obtain ⟨i, hi, hg⟩ := idxOf_mem (mem_leFit.mpr h)
  exact ⟨i, by simp [leTransform, hi], hg⟩

theorem leTransform_error_of_not_mem {vals : List String} {v : String}
    (h : v ∉ vals) : leTransform (leFit vals) v = .error unseenMsg := by
  simp [leTransform, idxOf_eq_none (fun hm => h (mem_leFit.mp hm))]

theorem mapME_replicate {α β : Type} {f : α → Except String β} {a : α} {b : β}
    (h : f a = .ok b) (n : Nat) :
    mapME f (List.replicate n a) = .ok (List.replicate n b) := by
  induction n with
  | zero => rfl
  | succ n ih => simp [List.replicate_succ, mapME, h, ih]

theorem mapME_ok_length {α β : Type} {f : α → Except String β} {l : List α}
    {bs : List β} (h : mapME f l = .ok bs) : bs.length = l.length := by
  induction l generalizing bs with
  | nil => cases h; rfl
  | cons a as ih =>
    simp only [mapME] at h
    rcases ha : f a with e | b <;> rw [ha] at h
    · cases h
    · rcases hr : mapME f as with e | bs' <;> rw [hr] at h
      · cases h
      · cases h
        simp [ih hr]

theorem foldr_max_mem (ns : List Nat) (h : ns ≠ []) : ns.foldr max 0 ∈ ns := by
  induction ns with
  | nil => cases h rfl
  | cons n t ih =>
    cases t with
    | nil => simp
    | cons m t' =>
      rcases max_choice n ((m :: t').foldr max 0) with hc | hc <;>
        simp only [List.foldr, hc] at *
      · exact List.mem_cons_self _ _
      · exact List.mem_cons_of_mem _ (ih (by simp))

theorem pdModeHead_ok {l : List String} (h : l ≠ []) :
    ∃ v, pdModeHead l = .ok v ∧ v ∈ l := by
  obtain ⟨a, t, rfl⟩ := List.exists_cons_of_ne_nil h
  have hac : a ∈ leFit (a :: t) := mem_leFit.mpr (List.mem_cons_self a t)
  have hcs : leFit (a :: t) ≠ [] := fun he => by simp [he] at hac
  have hmx : ((leFit (a :: t)).map (countS (a :: t))).foldr max 0 ∈
      (leFit (a :: t)).map (countS (a :: t)) :=
    foldr_max_mem _ (by simpa using hcs)
  obtain ⟨w, hw, hwc⟩ := List.mem_map.mp hmx
  have hwf : w ∈ pdModeList (a :: t) := by
    unfold pdModeList
    exact List.mem_filter.mpr ⟨hw, by simp [hwc]⟩
  rcases hml : pdModeList (a :: t) with _ | ⟨v, vs⟩
  · rw [hml] at hwf; cases hwf
  · refine ⟨v, by simp [pdModeHead, hml], ?_⟩
    have : v ∈ pdModeList (a :: t) := by rw [hml]; exact List.mem_cons_self _ _
    have hvcs : v ∈ leFit (a :: t) := (List.mem_filter.mp (by
      unfold pdModeList at this; exact this)).1
    exact mem_leFit.mp hvcs

theorem countS_collapse {l : List String} {y : String} (hy : y ≠ "Other")
    (hc : 1000 ≤ countS l y) :
    countS (l.map (collapseOne l)) y = countS l y := by
  unfold countS
  rw [List.countP_map]
  refine List.countP_congr (fun x hx => ?_)
  by_cases hxy : x = y
  · subst hxy
    simp [Function.comp, collapseOne, Nat.not_lt.mpr hc]
  · have h1 : collapseOne l x ≠ y := by
      unfold collapseOne
      split
      · exact Ne.symm hy
      · exact hxy
    simp [Function.comp, h1, hxy]

theorem collapseOne_idem (l : List String) (x : String) :
    collapseOne (l.map (collapseOne l)) (collapseOne l x) = collapseOne l x := by
  by_cases h : countS l x < 1000
  · have h1 : collapseOne l x = "Other" := by simp [collapseOne, h]
    rw [h1]
    unfold collapseOne
    split <;> rfl
  · have h1 : collapseOne l x = x := by simp [collapseOne, h]
    rw [h1]
    by_cases hx0 : x = "Other"
    · subst hx0
      unfold collapseOne
      split <;> rfl
    · have h2 : countS (l.map (collapseOne l)) x = countS l x :=
        countS_collapse hx0 (Nat.not_lt.mp h)
      simp [collapseOne, h2, h]

/-! ## Claim C4 — Category Collapser -/

/-- C4: every record whose category occurs at least 1000 times in the
training subset keeps its category, every other record gets the sentinel
`"Other"`; no record is removed; and collapsing the collapsed subset again
changes nothing (idempotence). -/
theorem c4_collapse_correct (rows : List MRow) :
    (collapseRows rows).length = rows.length ∧
    collapseRows rows = rows.map (fun r =>
      { r with crime_type := collapseOne (rows.map MRow.crime_type) r.crime_type }) ∧
    (∀ r ∈ rows,
      (1000 ≤ countS (rows.map MRow.crime_type) r.crime_type →
        collapseOne (rows.map MRow.crime_type) r.crime_type = r.crime_type) ∧
      (countS (rows.map MRow.crime_type) r.crime_type < 1000 →
        collapseOne (rows.map MRow.crime_type) r.crime_type = "Other")) ∧
    collapseRows (collapseRows rows) = collapseRows rows := by
  refine ⟨by simp [collapseRows], rfl, ?_, ?_⟩
  · intro r _
    constructor
    · intro hc
      simp [collapseOne, Nat.not_lt.mpr hc]
    · intro hc
      simp [collapseOne, hc]
  · unfold collapseRows
    have hK : (List.map (fun r =>
        { r with crime_type := collapseOne (List.map MRow.crime_type rows) r.crime_type })
          rows).map MRow.crime_type =
        (rows.map MRow.crime_type).map (collapseOne (rows.map MRow.crime_type)) := by
      rw [List.map_map, List.map_map]
      rfl
    rw [hK, List.map_map]
    refine List.map_congr_left (fun r hr => ?_)
    exact congrArg (fun ct => { r with crime_type := ct }) (collapseOne_idem _ _)

theorem countS_replicate (n : Nat) (v : String) :
    countS (List.replicate n v) v = n := by
  unfold countS
  induction n with
  | zero => rfl
  | succ n ih =>
    rw [List.replicate_succ]
    rw [List.countP_cons_of_pos _ _ (by simp)]
    omega

/-- A record of the majority category used by concrete witnesses. -/
def rBurg : MRow :=
  ⟨.fin 0, .fin 0, "Humberside Police", "Humberside Police",
    "Unable to prosecute suspect", "Burglary",
    some "E01012831", some "Hull 001A"⟩

/-- A record of a rare category used by concrete witnesses. -/
def rVand : MRow :=
  ⟨.fin 1, .fin 1, "Humberside Police", "Humberside Police",
    "Unable to prosecute suspect", "Vandalism",
    some "E01012832", some "Hull 001B"⟩

/-- A record with an IEEE-infinite longitude — which the cleaning layer
lets through — used by concrete witnesses. -/
def rInf : MRow :=
  ⟨.inf, .fin 0, "Humberside Police", "Humberside Police",
    "Unable to prosecute suspect", "Burglary",
    some "E01012831", some "Hull 001A"⟩

/-- A training subset with 1000 burglaries and one rare record. -/
def rowsW4 : List MRow := List.replicate 1000 rBurg ++ [rVand]

theorem rowsW4_types :
    rowsW4.map MRow.crime_type = List.replicate 1000 "Burglary" ++ ["Vandalism"] := by
  rw [rowsW4, List.map_append, List.map_replicate]
  rfl

/-- Witness for C4 at a concrete subset: the frequent category is kept,
the rare one becomes `"Other"`. -/
theorem c4_witness :
    (rBurg ∈ rowsW4 ∧
      1000 ≤ countS (rowsW4.map MRow.crime_type) rBurg.crime_type ∧
      collapseOne (rowsW4.map MRow.crime_type) rBurg.crime_type = rBurg.crime_type) ∧
    (rVand ∈ rowsW4 ∧
      countS (rowsW4.map MRow.crime_type) rVand.crime_type < 1000 ∧
      collapseOne (rowsW4.map MRow.crime_type) rVand.crime_type = "Other") := by
  have hmB : rBurg ∈ rowsW4 :=
    List.mem_append_left _ (List.mem_replicate.mpr ⟨by norm_num, rfl⟩)
  have hmV : rVand ∈ rowsW4 := List.mem_append_right _ (List.mem_cons_self _ _)
  have hcB : countS (rowsW4.map MRow.crime_type) rBurg.crime_type = 1000 := by
    rw [show rBurg.crime_type = "Burglary" from rfl, rowsW4_types]
    show List.countP _ _ = 1000
    rw [List.countP_append]
    have h1 := countS_replicate 1000 "Burglary"
    unfold countS at h1
    rw [h1]
    rfl
  have hcV : countS (rowsW4.map MRow.crime_type) rVand.crime_type = 1 := by
    rw [show rVand.crime_type = "Vandalism" from rfl, rowsW4_types]
    show List.countP _ _ = 1
    rw [List.countP_append]
    have h0 : List.countP (· == "Vandalism") (List.replicate 1000 "Burglary") = 0 := by
      rw [List.countP_eq_zero]
      intro a ha
      rw [List.eq_of_mem_replicate ha]
      decide
    rw [h0]
    rfl
  refine ⟨⟨hmB, ?_, ?_⟩, ⟨hmV, ?_, ?_⟩⟩
  · omega
  · exact ((c4_collapse_correct rowsW4).2.2.1 rBurg hmB).1 (by omega)
  · omega
  · exact ((c4_collapse_correct rowsW4).2.2.1 rVand hmV).2 (by omega)

/-! ## Claim C5 — Encoder determinism and schema-drift error -/

/-- C5: the transform step is a pure function of the fitted Encoder State —
transforming the same value (and z-scoring the same coordinate with the
fitted mean/scale) twice yields identical output and the fitted state is
never changed — and a categorical value unseen at fit time yields the
schema-drift error `unseenMsg` on every call, never a code; a value seen at
fit time always yields its code. -/
theorem c5_encoder_determinism (vals : List String) (v : String) :
    leTransform (leFit vals) v = leTransform (leFit vals) v ∧
    (∀ mean scale x : ℚ, scaleVal mean scale x = scaleVal mean scale x) ∧
    (v ∉ vals → leTransform (leFit vals) v = .error unseenMsg ∧
      ∀ i, leTransform (leFit vals) v ≠ .ok i) ∧
    (v ∈ vals → ∃ i, leTransform (leFit vals) v = .ok i) := by
  refine ⟨rfl, fun _ _ _ => rfl, fun h => ?_, fun h => ?_⟩
  · have he := leTransform_error_of_not_mem h
    exact ⟨he, fun i hi => by rw [he] at hi; cases hi⟩
  · obtain ⟨i, hok, _⟩ := leTransform_ok_of_mem h
    exact ⟨i, hok⟩

/-- Witness for C5 at a concrete fitted encoder: the unseen value errors,
the seen value encodes. -/
theorem c5_witness :
    ("Robbery" ∉ ["Burglary", "Theft"] ∧
      leTransform (leFit ["Burglary", "Theft"]) "Robbery" = .error unseenMsg) ∧
    ("Theft" ∈ ["Burglary", "Theft"] ∧
      ∃ i, leTransform (leFit ["Burglary", "Theft"]) "Theft" = .ok i) :=
  ⟨⟨by decide, ((c5_encoder_determinism ["Burglary", "Theft"] "Robbery").2.2.1
      (by decide)).1⟩,
   ⟨by decide, (c5_encoder_determinism ["Burglary", "Theft"] "Theft").2.2.2
      (by decide)⟩⟩

/-! ## Claim C8 — Round trip of the target encoding -/

/-- C8: every class label present at fit time of the target encoder maps to
a class id whose inverse transform is exactly the original label. -/
theorem c8_target_roundtrip (vals : List String) (v : String) (h : v ∈ vals) :
    ∃ i, leTransform (leFit vals) v = .ok i ∧ leInverse (leFit vals) i = .ok v := by
  obtain ⟨i, hok, hget⟩ := leTransform_ok_of_mem h
  exact ⟨i, hok, by simp [leInverse, hget]⟩

/-- Witness for C8 at a concrete vocabulary. -/
theorem c8_witness :
    "Theft" ∈ ["Burglary", "Theft", "Other"] ∧
    ∃ i, leTransform (leFit ["Burglary", "Theft", "Other"]) "Theft" = .ok i ∧
      leInverse (leFit ["Burglary", "Theft", "Other"]) i = .ok "Theft" :=
  ⟨by decide, c8_target_roundtrip ["Burglary", "Theft", "Other"] "Theft" (by decide)⟩

/-! ## Claim C10 — The inference path never hits the unseen-value error -/

theorem mode_transform_ok {l : List String} (h : l ≠ []) :
    ∃ v codes, pdModeHead l = .ok v ∧
      mapME (leTransform (leFit l)) (List.replicate 5000 v) = .ok codes := by
  obtain ⟨v, hm, hv⟩ := pdModeHead_ok h
  obtain ⟨i, hok, _⟩ := leTransform_ok_of_mem hv
  exact ⟨v, List.replicate 5000 i, hm, mapME_replicate hok 5000⟩

/-- C10: given a non-empty training subset, the three encoder calls of the
period loop (each applied to 5000 copies of the column's mode) all succeed:
the mode of a non-empty column is a member of the column, hence of the
vocabulary its encoder was fitted on, so the unseen-value branch is
unreachable. -/
theorem c10_loop_transform_total (sq : ℚ → ℚ)
    (fc : List EncRow → List Nat → RFModel) (rows : List MRow)
    (h : dfModelRows rows ≠ []) :
    (∃ v codes,
      pdModeHead ((trainOutCore sq fc rows).dfModel.map MRow.reported_by) = .ok v ∧
      mapME (leTransform (trainOutCore sq fc rows).leRB)
        (List.replicate 5000 v) = .ok codes) ∧
    (∃ v codes,
      pdModeHead ((trainOutCore sq fc rows).dfModel.map MRow.falls_within) = .ok v ∧
      mapME (leTransform (trainOutCore sq fc rows).leFW)
        (List.replicate 5000 v) = .ok codes) ∧
    (∃ v codes,
      pdModeHead ((trainOutCore sq fc rows).dfModel.map MRow.last_outcome_category) = .ok v ∧
      mapME (leTransform (trainOutCore sq fc rows).leLOC)
        (List.replicate 5000 v) = .ok codes) := by
  have hne : collapseRows (dfModelRows rows) ≠ [] := by
    intro he
    exact h (List.map_eq_nil_iff.mp (by rw [collapseRows] at he; exact he))
  refine ⟨mode_transform_ok ?_, mode_transform_ok ?_, mode_transform_ok ?_⟩ <;>
    exact fun he => hne (List.map_eq_nil_iff.mp he)

/-- Witness for C10 at a concrete one-record subset. -/
theorem c10_witness :
    dfModelRows [rBurg] ≠ [] ∧
    (∃ v codes,
      pdModeHead ((trainOutCore id (fun _ _ => ⟨fun _ => 0⟩) [rBurg]).dfModel.map
        MRow.reported_by) = .ok v ∧
      mapME (leTransform (trainOutCore id (fun _ _ => ⟨fun _ => 0⟩) [rBurg]).leRB)
        (List.replicate 5000 v) = .ok codes) := by
  have h : dfModelRows [rBurg] ≠ [] := by simp [dfModelRows, rBurg]
  exact ⟨h, (c10_loop_transform_total id (fun _ _ => ⟨fun _ => 0⟩) [rBurg] h).1⟩

/-! ## Lemmas about the cleaning primitives -/

/-- A list whose head (if any) is not whitespace. -/
def HeadNotWs (l : List Char) : Prop := ∀ c t, l = c :: t → wsChar c = false

theorem headNotWs_dropWhile (l : List Char) : HeadNotWs (l.dropWhile wsChar) := by
  induction l with
  | nil => intro c t h; cases h
  | cons a as ih =>
    by_cases ha : wsChar a
    · simpa [List.dropWhile_cons, ha] using ih
    · intro c t h
      rw [List.dropWhile_cons, if_neg (by simp [ha])] at h
      cases h
      simpa using ha

theorem dropWhile_eq_self_of_headNotWs {l : List Char} (h : HeadNotWs l) :
    l.dropWhile wsChar = l := by
  cases l with
  | nil => rfl
  | cons c t => rw [List.dropWhile_cons, if_neg (by simp [h c t rfl])]

theorem stripTrail_append (l : List Char) :
    stripTrailChars l ++ (l.reverse.takeWhile wsChar).reverse = l := by
  unfold stripTrailChars
  rw [← List.reverse_append, List.takeWhile_append_dropWhile, List.reverse_reverse]

theorem headNotWs_stripTrail {l : List Char} (h : HeadNotWs l) :
    HeadNotWs (stripTrailChars l) := by
  intro c t he
  have := stripTrail_append l
  rw [he] at this
  exact h c _ this.symm

theorem headNotWs_map {f : Char → Char}
    (hf : ∀ c, wsChar c = false → wsChar (f c) = false) {l : List Char}
    (h : HeadNotWs l) : HeadNotWs (l.map f) := by
  intro c t he
  cases l with
  | nil => cases he
  | cons a as =>
    rw [List.map_cons] at he
    cases he
    exact hf a (h a as rfl)

theorem reverse_stripTrail (l : List Char) :
    (stripTrailChars l).reverse = l.reverse.dropWhile wsChar := by
  unfold stripTrailChars
  rw [List.reverse_reverse]

theorem stripTrail_eq_self_of_revHead {l : List Char} (h : HeadNotWs l.reverse) :
    stripTrailChars l = l := by
  unfold stripTrailChars
  rw [dropWhile_eq_self_of_headNotWs h, List.reverse_reverse]

/-- A list with no leading and no trailing whitespace strips to itself. -/
theorem pyStripChars_eq_self {l : List Char} (h1 : HeadNotWs l)
    (h2 : HeadNotWs l.reverse) : pyStripChars l = l := by
  unfold pyStripChars stripLeadChars
  rw [dropWhile_eq_self_of_headNotWs h1, stripTrail_eq_self_of_revHead h2]

theorem headNotWs_pyStripChars (l : List Char) : HeadNotWs (pyStripChars l) :=
  headNotWs_stripTrail (headNotWs_dropWhile l)

theorem headNotWs_pyStripChars_reverse (l : List Char) :
    HeadNotWs (pyStripChars l).reverse := by
  unfold pyStripChars
  rw [reverse_stripTrail]
  exact headNotWs_dropWhile _

theorem pyStripChars_idem (l : List Char) :
    pyStripChars (pyStripChars l) = pyStripChars l :=
  pyStripChars_eq_self (headNotWs_pyStripChars l) (headNotWs_pyStripChars_reverse l)

theorem pyStrip_idem (s : String) : pyStrip (pyStrip s) = pyStrip s :=
  congrArg String.mk (pyStripChars_idem s.data)

/-! Character-level facts about `Char.toLower` and `replChar`. -/

theorem wsChar_eq_false_of_toNat {c : Char} (h1 : c.toNat ≠ 32) (h2 : c.toNat ≠ 9)
    (h3 : c.toNat ≠ 13) (h4 : c.toNat ≠ 10) : wsChar c = false := by
  unfold wsChar Char.isWhitespace
  have e1 : c ≠ ' ' := fun he => h1 (by rw [he]; rfl)
  have e2 : c ≠ '\t' := fun he => h2 (by rw [he]; rfl)
  have e3 : c ≠ '\x0d' := fun he => h3 (by rw [he]; rfl)
  have e4 : c ≠ '\n' := fun he => h4 (by rw [he]; rfl)
  simp [e1, e2, e3, e4]

theorem toLower_toNat_of_upper {c : Char} (h : 65 ≤ c.toNat ∧ c.toNat ≤ 90) :
    (Char.toLower c).toNat = c.toNat + 32 := by
  have hv : (c.toNat + 32).isValidChar := by
    unfold Nat.isValidChar
    omega
  unfold Char.toLower
  rw [if_pos ⟨h.1, h.2⟩]
  unfold Char.ofNat
  rw [dif_pos hv]
  simp [Char.ofNatAux, Char.toNat, UInt32.toNat, BitVec.toNat_ofNatLt]

theorem toLower_eq_self_of_not_upper {c : Char}
    (h : ¬(65 ≤ c.toNat ∧ c.toNat ≤ 90)) : Char.toLower c = c := by
  unfold Char.toLower
  rw [if_neg h]

theorem wsChar_toLower {c : Char} (h : wsChar c = false) :
    wsChar (Char.toLower c) = false := by
  by_cases hc : 65 ≤ c.toNat ∧ c.toNat ≤ 90
  · have hn := toLower_toNat_of_upper hc
    exact wsChar_eq_false_of_toNat (by omega) (by omega) (by omega) (by omega)
  · rw [toLower_eq_self_of_not_upper hc]
    exact h

theorem wsChar_replChar {c : Char} (h : wsChar c = false) :
    wsChar (replChar c) = false := by
  unfold replChar
  split
  · decide
  · exact h

/-- The composite character map of the column normaliser. -/
theorem replLower_idem (c : Char) :
    replChar (Char.toLower (replChar (Char.toLower c))) =
      replChar (Char.toLower c) := by
  by_cases hc : 65 ≤ c.toNat ∧ c.toNat ≤ 90
  · have hn := toLower_toNat_of_upper hc
    have hs : replChar (Char.toLower c) = Char.toLower c := by
      unfold replChar
      rw [if_neg (fun he => by rw [he] at hn; simp at hn; omega)]
    rw [hs]
    have hnot : ¬(65 ≤ (Char.toLower c).toNat ∧ (Char.toLower c).toNat ≤ 90) := by
      omega
    rw [toLower_eq_self_of_not_upper hnot, hs]
  · rw [toLower_eq_self_of_not_upper hc]
    by_cases hsp : c = ' '
    · subst hsp
      decide
    · have hr : replChar c = c := by
        unfold replChar
        rw [if_neg hsp]
      rw [hr, toLower_eq_self_of_not_upper hc, hr]

/-- `str.lower()` then `str.replace(' ', '_')` sends non-whitespace to
non-whitespace. -/
theorem wsChar_replLower {c : Char} (h : wsChar c = false) :
    wsChar (replChar (Char.toLower c)) = false :=
  wsChar_replChar (wsChar_toLower h)

/-! ## Lemmas about `dedupById` -/

theorem dedupById_subset {seen : List CellVal} {l : List RawRow} :
    ∀ r ∈ dedupById seen l, r ∈ l := by
  induction l generalizing seen with
  | nil => intro r h; cases h
  | cons a as ih =>
    intro r h
    unfold dedupById at h
    split at h
    · exact List.mem_cons_of_mem _ (ih r h)
    · rcases List.mem_cons.mp h with h' | h'
      · exact h' ▸ List.mem_cons_self _ _
      · exact List.mem_cons_of_mem _ (ih r h')

theorem dedupById_not_seen {seen : List CellVal} {l : List RawRow} :
    ∀ r ∈ dedupById seen l, r.crime_id ∉ seen := by
  induction l generalizing seen with
  | nil => intro r h; cases h
  | cons a as ih =>
    intro r h
    unfold dedupById at h
    split at h
    · exact ih r h
    · rcases List.mem_cons.mp h with h' | h'
      · subst h'
        assumption
      · intro hs
        exact ih r h' (List.mem_cons_of_mem _ hs)

theorem dedupById_pairwise (seen : List CellVal) (l : List RawRow) :
    (dedupById seen l).Pairwise (fun a b => a.crime_id ≠ b.crime_id) := by
  induction l generalizing seen with
  | nil => exact List.Pairwise.nil
  | cons a as ih =>
    unfold dedupById
    split
    · exact ih seen
    · refine List.Pairwise.cons (fun b hb => ?_) (ih _)
      have := dedupById_not_seen b hb
      intro he
      exact this (he ▸ List.mem_cons_self _ _)

theorem dedupById_eq_self {seen : List CellVal} {l : List RawRow}
    (hp : l.Pairwise (fun a b => a.crime_id ≠ b.crime_id))
    (hs : ∀ r ∈ l, r.crime_id ∉ seen) : dedupById seen l = l := by
  induction l generalizing seen with
  | nil => rfl
  | cons a as ih =>
    unfold dedupById
    rw [if_neg (hs a (List.mem_cons_self _ _))]
    congr 1
    refine ih (List.Pairwise.sublist (List.sublist_cons_self _ _) hp) (fun r hr => ?_)
    intro hmem
    rcases List.mem_cons.mp hmem with h' | h'
    · exact (List.pairwise_cons.mp hp).1 r hr h'.symm
    · exact hs r (List.mem_cons_of_mem _ hr) h'

/-! ## Lemmas about row coercion -/

theorem toNumericCell_idem (parse : String → Option NumVal) (c : CellVal) :
    toNumericCell parse (toNumericCell parse c) = toNumericCell parse c := by
  cases c with
  | num n => rfl
  | str s => cases hp : parse s <;> simp [toNumericCell, hp]
  | missing => rfl

theorem coerceRow_idem (parse : String → Option NumVal) (showNum : NumVal → String)
    (r : RawRow) :
    coerceRow parse showNum (coerceRow parse showNum r) = coerceRow parse showNum r := by
  unfold coerceRow
  simp only [toNumericCell_idem]
  congr 1
  show CellVal.str (pyStrip (cellToString showNum
    (.str (pyStrip (cellToString showNum r.location))))) = _
  rw [show cellToString showNum (.str (pyStrip (cellToString showNum r.location))) =
    pyStrip (cellToString showNum r.location) from rfl, pyStrip_idem]

/-- Shape of a coerced coordinate: numeric or missing, nothing else. -/
theorem toNumericCell_shape (parse : String → Option NumVal) (c : CellVal) :
    (∃ n, toNumericCell parse c = .num n) ∨ toNumericCell parse c = .missing := by
  cases c with
  | num n => exact Or.inl ⟨n, rfl⟩
  | str s =>
    cases hp : parse s with
    | none => exact Or.inr (by simp [toNumericCell, hp])
    | some n => exact Or.inl ⟨n, by simp [toNumericCell, hp]⟩
  | missing => exact Or.inr rfl

theorem rowComplete_spec {r : RawRow} (h : rowComplete r = true) :
    r.crime_id ≠ .missing ∧ r.crime_type ≠ .missing ∧
      r.latitude ≠ .missing ∧ r.longitude ≠ .missing := by
  unfold rowComplete at h
  simp only [Bool.and_eq_true, bne_iff_ne, Bool.not_eq_true', beq_eq_false_iff_ne] at h
  exact ⟨h.1.1.1, h.1.1.2, h.1.2, h.2⟩

/-- Every row of the cleaned collection is a fixed point of coercion and is
complete. -/
theorem cleanRows_mem_spec {parse : String → Option NumVal}
    {showNum : NumVal → String} {rows : List RawRow} :
    ∀ r ∈ cleanRows parse showNum rows,
      coerceRow parse showNum r = r ∧ rowComplete r = true := by
  intro r hr
  have hrf : r ∈ (rows.map (coerceRow parse showNum)).filter rowComplete :=
    dedupById_subset r hr
  have hc : rowComplete r = true := List.of_mem_filter hrf
  have hm : r ∈ rows.map (coerceRow parse showNum) := List.mem_of_mem_filter hrf
  obtain ⟨r0, _, rfl⟩ := List.mem_map.mp hm
  exact ⟨coerceRow_idem parse showNum r0, hc⟩

/-! ## Claim C9 — Cleaning idempotence -/

/-- C9: the Loader/Cleaner is idempotent — re-cleaning its own output
changes no row, drops no row and keeps the order — and the column-name
normalisation is idempotent as well. -/
theorem c9_cleaning_idempotent (parse : String → Option NumVal)
    (showNum : NumVal → String) (rows : List RawRow) (s : String) :
    cleanRows parse showNum (cleanRows parse showNum rows) =
      cleanRows parse showNum rows ∧
    normColumnName (normColumnName s) = normColumnName s := by
  constructor
  · have hfix := @cleanRows_mem_spec parse showNum rows
    show dedupById []
      (((cleanRows parse showNum rows).map (coerceRow parse showNum)).filter
        rowComplete) = _
    have hmap : (cleanRows parse showNum rows).map (coerceRow parse showNum) =
        cleanRows parse showNum rows := by
      rw [List.map_congr_left (fun r hr => (hfix r hr).1)]
      exact List.map_id' _
    rw [hmap, List.filter_eq_self.mpr (fun r hr => (hfix r hr).2)]
    exact dedupById_eq_self (dedupById_pairwise _ _) (by simp)
  · unfold normColumnName
    have hstrip : pyStripChars
        (((pyStripChars s.data).map Char.toLower).map replChar) =
        ((pyStripChars s.data).map Char.toLower).map replChar := by
      refine pyStripChars_eq_self ?_ ?_
      · exact headNotWs_map (fun c h => wsChar_replChar h)
          (headNotWs_map (fun c h => wsChar_toLower h) (headNotWs_pyStripChars _))
      · rw [← List.map_reverse, ← List.map_reverse]
        exact headNotWs_map (fun c h => wsChar_replChar h)
          (headNotWs_map (fun c h => wsChar_toLower h)
            (headNotWs_pyStripChars_reverse _))
    refine congrArg String.mk ?_
    show ((pyStripChars (((pyStripChars s.data).map Char.toLower).map
      replChar)).map Char.toLower).map replChar = _
    rw [hstrip]
    rw [List.map_map, List.map_map, List.map_map, List.map_map]
    exact List.map_congr_left (fun c _ => replLower_idem c)

/-! ## Claim C3 — Invariants of the cleaned collection

The uniqueness half and the presence half hold.  The finiteness half does
not: line 38 uses `dropna`, which removes `NaN` but not `±inf`, so a raw
table carrying an IEEE-infinite coordinate (e.g. the literal `inf` in the
CSV, which both `read_csv` and `to_numeric` parse to `float('inf')`)
survives cleaning with an infinite coordinate. -/

/-- C3 (amended): after cleaning, no two records share an identifier, and
every record has identifier, category and both coordinates present and
numeric (non-`NaN`); infinite coordinates, however, are not filtered. -/
theorem c3_cleaned_invariants (parse : String → Option NumVal)
    (showNum : NumVal → String) (rows : List RawRow) :
    (cleanRows parse showNum rows).Pairwise (fun a b => a.crime_id ≠ b.crime_id) ∧
    ∀ r ∈ cleanRows parse showNum rows,
      r.crime_id ≠ .missing ∧ r.crime_type ≠ .missing ∧
      (∃ n, r.latitude = .num n) ∧ (∃ n, r.longitude = .num n) := by
  refine ⟨dedupById_pairwise _ _, fun r hr => ?_⟩
  obtain ⟨hco, hcm⟩ := cleanRows_mem_spec r hr
  have hs := rowComplete_spec hcm
  have hlat : toNumericCell parse r.latitude = r.latitude :=
    congrArg RawRow.latitude hco
  have hlon : toNumericCell parse r.longitude = r.longitude :=
    congrArg RawRow.longitude hco
  refine ⟨hs.1, hs.2.1, ?_, ?_⟩
  · rcases toNumericCell_shape parse r.latitude with ⟨n, hn⟩ | hmiss
    · exact ⟨n, hlat ▸ hn⟩
    · exact absurd (hlat ▸ hmiss) hs.2.2.1
  · rcases toNumericCell_shape parse r.longitude with ⟨n, hn⟩ | hmiss
    · exact ⟨n, hlon ▸ hn⟩
    · exact absurd (hlon ▸ hmiss) hs.2.2.2

/-- A concrete pandas number parser for witnesses (its value is irrelevant
to the statements below, which involve no string-typed coordinates). -/
def parseW : String → Option NumVal := fun _ => none

/-- A concrete number renderer for witnesses. -/
def showW : NumVal → String := fun _ => "0.0"

/-- A raw record whose longitude cell holds IEEE `inf` (as produced by
`read_csv`/`to_numeric` from the CSV literal `inf`). -/
def rawInf : RawRow :=
  ⟨.str "idI", .str "Burglary", .num (.fin 0), .num .inf, .str "X",
    .str "H", .str "H", .str "U", .str "E01", .str "Hull"⟩

/-- Counterexample to C3 as stated: the record with an infinite longitude
survives cleaning — the cleaned collection is non-empty and its single
longitude is `inf`, not a finite number, so "every record has finite
coordinates" is false for this input. -/
theorem c3_counterexample :
    (cleanRows parseW showW [rawInf]).map RawRow.longitude =
      [CellVal.num NumVal.inf] ∧
    (cleanRows parseW showW [rawInf]).length = 1 := by
  constructor <;> rfl

/-- A complete, already-clean raw record. -/
def rawA : RawRow :=
  ⟨.str "idA", .str "Burglary", .num (.fin 0), .num (.fin 0), .str "X",
    .str "H", .str "H", .str "U", .str "E01", .str "Hull"⟩

/-- A second record sharing `rawA`'s identifier (deduplicated away). -/
def rawB : RawRow :=
  ⟨.str "idA", .str "Theft", .num (.fin 1), .num (.fin 1), .str "Y",
    .str "H", .str "H", .str "U", .str "E02", .str "Hull"⟩

/-- Witness for C3 (amended) at a concrete input with a duplicate id. -/
theorem c3_witness :
    rawA ∈ cleanRows parseW showW [rawA, rawB] ∧
    (rawA.crime_id ≠ .missing ∧ rawA.crime_type ≠ .missing ∧
      (∃ n, rawA.latitude = .num n) ∧ (∃ n, rawA.longitude = .num n)) := by
  have hm : rawA ∈ cleanRows parseW showW [rawA, rawB] := by
    rw [show cleanRows parseW showW [rawA, rawB] = [rawA] from rfl]
    exact List.mem_cons_self _ _
  exact ⟨hm, (c3_cleaned_invariants parseW showW [rawA, rawB]).2 rawA hm⟩

/-! ## Claim C2 — When training fails

`train_model`'s fatal conditions at fit time are `check_array`'s: an
empty training subset (equivalently an empty encoded feature matrix), and
a non-finite training coordinate (the cleaning layer proves infinities
can survive into the training subset).  A single-class target on a
non-empty subset of finite coordinates does **not** fail: sklearn fits a
one-class forest without complaint, so the source returns a predictor. -/

theorem collapseRows_map_longitude (rows : List MRow) :
    (collapseRows rows).map MRow.longitude = rows.map MRow.longitude := by
  unfold collapseRows
  rw [List.map_map]
  rfl

theorem collapseRows_map_latitude (rows : List MRow) :
    (collapseRows rows).map MRow.latitude = rows.map MRow.latitude := by
  unfold collapseRows
  rw [List.map_map]
  rfl

theorem trainModel_ok {sq : ℚ → ℚ} {fc : List EncRow → List Nat → RFModel}
    {rows : List MRow} (h : dfModelRows rows ≠ [])
    (hfin : ∀ r ∈ dfModelRows rows,
      NumVal.isFin r.longitude = true ∧ NumVal.isFin r.latitude = true) :
    trainModel sq fc rows = .ok (trainOutCore sq fc rows) := by
  have hne : collapseRows (dfModelRows rows) ≠ [] := fun he =>
    h (List.map_eq_nil_iff.mp (by rw [collapseRows] at he; exact he))
  have hlonall : ((collapseRows (dfModelRows rows)).map MRow.longitude).all
      NumVal.isFin = true := by
    rw [collapseRows_map_longitude, List.all_eq_true]
    intro v hv
    obtain ⟨r, hr, rfl⟩ := List.mem_map.mp hv
    exact (hfin r hr).1
  have hlatall : ((collapseRows (dfModelRows rows)).map MRow.latitude).all
      NumVal.isFin = true := by
    rw [collapseRows_map_latitude, List.all_eq_true]
    intro v hv
    obtain ⟨r, hr, rfl⟩ := List.mem_map.mp hv
    exact (hfin r hr).2
  have h1 : ((collapseRows (dfModelRows rows)).map MRow.longitude).isEmpty = false := by
    rw [List.isEmpty_eq_false]
    exact fun he => hne (List.map_eq_nil_iff.mp he)
  have h2 : (encTrain sq (collapseRows (dfModelRows rows))).isEmpty = false := by
    rw [List.isEmpty_eq_false]
    unfold encTrain
    exact fun he => hne (List.map_eq_nil_iff.mp he)
  unfold trainModel scalerFit rfFit
  simp only [hlonall, hlatall, Bool.and_self, Bool.not_true, h1, h2,
    Bool.false_eq_true, if_false]

theorem trainModel_error {sq : ℚ → ℚ} {fc : List EncRow → List Nat → RFModel}
    {rows : List MRow} (h : dfModelRows rows = []) :
    trainModel sq fc rows = .error emptyMsg := by
  unfold trainModel scalerFit
  rw [h]
  rfl

theorem trainModel_nonfinite {sq : ℚ → ℚ}
    {fc : List EncRow → List Nat → RFModel} {rows : List MRow}
    (h : ∃ r ∈ dfModelRows rows,
      NumVal.isFin r.longitude = false ∨ NumVal.isFin r.latitude = false) :
    trainModel sq fc rows = .error nonFiniteMsg := by
  obtain ⟨r, hr, hor⟩ := h
  have hcond : (((collapseRows (dfModelRows rows)).map MRow.longitude).all
        NumVal.isFin &&
      ((collapseRows (dfModelRows rows)).map MRow.latitude).all
        NumVal.isFin) = false := by
    rcases hor with h' | h'
    · have hl : ((collapseRows (dfModelRows rows)).map MRow.longitude).all
          NumVal.isFin = false := by
        rw [collapseRows_map_longitude, Bool.eq_false_iff]
        intro hall
        rw [List.all_eq_true] at hall
        have hv := hall r.longitude (List.mem_map_of_mem _ hr)
        rw [h'] at hv
        cases hv
      rw [hl, Bool.false_and]
    · have hl : ((collapseRows (dfModelRows rows)).map MRow.latitude).all
          NumVal.isFin = false := by
        rw [collapseRows_map_latitude, Bool.eq_false_iff]
        intro hall
        rw [List.all_eq_true] at hall
        have hv := hall r.latitude (List.mem_map_of_mem _ hr)
        rw [h'] at hv
        cases hv
      rw [hl, Bool.and_false]
  unfold trainModel scalerFit
  simp only [hcond, Bool.not_false, eq_self_iff_true, if_true]

/-- C2 (amended): `train_model` fails fatally, returning no predictor,
when the encoded feature matrix is empty (`check_array`'s 0-sample error;
the matrix is empty exactly when the training subset is) and when a
coordinate of the training subset is non-finite (`check_array`'s
non-finite error, a reachable condition because the cleaning keeps
infinities); it does **not** fail for lack of target classes — on a
non-empty training subset with finite coordinates it returns a predictor
even when the encoded target holds a single distinct class, since sklearn
accepts a single-class fit. -/
theorem c2_fit_failure (sq : ℚ → ℚ) (fc : List EncRow → List Nat → RFModel)
    (rows : List MRow) :
    (encTrain sq (collapseRows (dfModelRows rows)) = [] ↔ dfModelRows rows = []) ∧
    (dfModelRows rows = [] → trainModel sq fc rows = .error emptyMsg) ∧
    ((∃ r ∈ dfModelRows rows,
        NumVal.isFin r.longitude = false ∨ NumVal.isFin r.latitude = false) →
      trainModel sq fc rows = .error nonFiniteMsg) ∧
    (dfModelRows rows ≠ [] →
      (∀ r ∈ dfModelRows rows,
        NumVal.isFin r.longitude = true ∧ NumVal.isFin r.latitude = true) →
      trainModel sq fc rows = .ok (trainOutCore sq fc rows)) := by
  refine ⟨?_, fun h => trainModel_error h, fun h => trainModel_nonfinite h,
    fun h hfin => trainModel_ok h hfin⟩
  unfold encTrain
  rw [List.map_eq_nil_iff]
  unfold collapseRows
  rw [List.map_eq_nil_iff]

/-- The abstract learned decision function used by concrete witnesses. -/
def fcW : List EncRow → List Nat → RFModel := fun _ _ => ⟨fun _ => 0⟩

/-- The abstract square root used by concrete witnesses. -/
def sqW : ℚ → ℚ := fun q => q

/-- Counterexample to C2 as stated: a non-empty training subset whose
collapsed target vocabulary has exactly one class, on which `train_model`
nevertheless returns a trained predictor instead of failing. -/
theorem c2_counterexample :
    leFit ((collapseRows (dfModelRows [rBurg])).map MRow.crime_type) = ["Other"] ∧
    trainModel sqW fcW [rBurg] = .ok (trainOutCore sqW fcW [rBurg]) := by
  constructor
  · rfl
  · exact trainModel_ok (by simp [dfModelRows, rBurg]) (by decide)

/-- Witness for C2 (amended): the empty subset fails fatally with the
0-sample error, a subset carrying an infinite coordinate fails fatally
with the non-finite error, and the finite one-record subset trains. -/
theorem c2_witness :
    (dfModelRows ([] : List MRow) = [] ∧
      trainModel sqW fcW [] = .error emptyMsg) ∧
    ((∃ r ∈ dfModelRows [rInf],
        NumVal.isFin r.longitude = false ∨ NumVal.isFin r.latitude = false) ∧
      trainModel sqW fcW [rInf] = .error nonFiniteMsg) ∧
    (dfModelRows [rBurg] ≠ [] ∧
      trainModel sqW fcW [rBurg] = .ok (trainOutCore sqW fcW [rBurg])) := by
  have hInf : ∃ r ∈ dfModelRows [rInf],
      NumVal.isFin r.longitude = false ∨ NumVal.isFin r.latitude = false := by
    decide
  have hB : dfModelRows [rBurg] ≠ [] := by simp [dfModelRows, rBurg]
  have hBf : ∀ r ∈ dfModelRows [rBurg],
      NumVal.isFin r.longitude = true ∧ NumVal.isFin r.latitude = true := by
    decide
  exact ⟨⟨rfl, (c2_fit_failure sqW fcW []).2.1 rfl⟩,
    ⟨hInf, (c2_fit_failure sqW fcW [rInf]).2.2.1 hInf⟩,
    ⟨hB, (c2_fit_failure sqW fcW [rBurg]).2.2.2 hB hBf⟩⟩

/-! ## Lemmas about the sampling loop -/

theorem uniformDraws_succ (g : RandGen) (lo hi : ℚ) (n s : Nat) :
    uniformDraws g lo hi (n + 1) s =
      ((lo + (hi - lo) * g.frac (g.step s)) ::
          (uniformDraws g lo hi n (g.step s)).1,
        (uniformDraws g lo hi n (g.step s)).2) := rfl

theorem uniformDraws_length (g : RandGen) (lo hi : ℚ) :
    ∀ n s, ((uniformDraws g lo hi n s).1).length = n := by
  intro n
  induction n with
  | zero => intro s; rfl
  | succ n ih =>
    intro s
    rw [uniformDraws_succ]
    simp [ih]

theorem uniformDraws_bounds (g : RandGen) {lo hi : ℚ} (hle : lo ≤ hi) :
    ∀ n s, ∀ x ∈ (uniformDraws g lo hi n s).1, lo ≤ x ∧ x ≤ hi := by
  intro n
  induction n with
  | zero => intro s x hx; cases hx
  | succ n ih =>
    intro s x hx
    rw [uniformDraws_succ] at hx
    rcases List.mem_cons.mp hx with h' | h'
    · subst h'
      have h0 : (0 : ℚ) ≤ hi - lo := sub_nonneg.mpr hle
      have hf0 := g.frac_nonneg (g.step s)
      have hf1 := g.frac_lt_one (g.step s)
      constructor
      · nlinarith
      · nlinarith
    · exact ih (g.step s) x h'

theorem foldl_min_le_init (l : List ℚ) (a : ℚ) : l.foldl min a ≤ a := by
  induction l generalizing a with
  | nil => exact le_refl a
  | cons b t ih => exact le_trans (ih (min a b)) (min_le_left a b)

theorem foldl_le_foldl_max (l : List ℚ) (a : ℚ) : a ≤ l.foldl max a := by
  induction l generalizing a with
  | nil => exact le_refl a
  | cons b t ih => exact le_trans (le_max_left a b) (ih (max a b))

theorem qminL_le_qmaxL {l : List ℚ} (h : l ≠ []) : qminL l ≤ qmaxL l := by
  obtain ⟨a, t, rfl⟩ := List.exists_cons_of_ne_nil h
  exact le_trans (foldl_min_le_init t a) (foldl_le_foldl_max t a)

theorem forall_mem_zipWith {α β γ : Type} {f : α → β → γ} {P : γ → Prop} :
    ∀ {l1 : List α} {l2 : List β},
      (∀ a ∈ l1, ∀ b ∈ l2, P (f a b)) → ∀ x ∈ List.zipWith f l1 l2, P x := by
  intro l1
  induction l1 with
  | nil => intro l2 h x hx; cases hx
  | cons a as ih =>
    intro l2 h x hx
    cases l2 with
    | nil => cases hx
    | cons b bs =>
      rw [List.zipWith_cons_cons] at hx
      rcases List.mem_cons.mp hx with h' | h'
      · exact h' ▸ h a (List.mem_cons_self _ _) b (List.mem_cons_self _ _)
      · exact ih (fun a' ha' b' hb' =>
          h a' (List.mem_cons_of_mem _ ha') b' (List.mem_cons_of_mem _ hb')) x h'

theorem mapME_ok_of_forall {α β : Type} {f : α → Except String β} :
    ∀ {l : List α}, (∀ a ∈ l, ∃ b, f a = .ok b) →
      ∃ bs, mapME f l = .ok bs ∧ bs.length = l.length := by
  intro l
  induction l with
  | nil => exact fun _ => ⟨[], rfl, rfl⟩
  | cons a as ih =>
    intro h
    obtain ⟨b, hb⟩ := h a (List.mem_cons_self _ _)
    obtain ⟨bs, hbs, hlen⟩ := ih (fun a' ha' => h a' (List.mem_cons_of_mem _ ha'))
    exact ⟨b :: bs, by simp [mapME, hb, hbs], by simp [hlen]⟩

theorem leInverse_ok_of_lt {classes : List String} {i : Nat}
    (h : i < classes.length) : ∃ v, leInverse classes i = .ok v := by
  refine ⟨classes[i], ?_⟩
  unfold leInverse
  rw [List.getElem?_eq_getElem h]

/-! ## The pivot row-sum lemma (aggregator) -/

theorem sum_count_eq_length (ls : List String) (S : Finset String)
    (hsub : ∀ c ∈ ls, c ∈ S) : ∑ c ∈ S, ls.count c = ls.length := by
  classical
  have h1 : ∑ c ∈ ls.toFinset, ls.count c = ls.length := by
    simp
  have hsub' : ls.toFinset ⊆ S := fun c hc => hsub c (List.mem_toFinset.mp hc)
  have h0 : ∀ c ∈ S, c ∉ ls.toFinset → ls.count c = 0 := fun c _ hc =>
    List.count_eq_zero.mpr (fun hm => hc (List.mem_toFinset.mpr hm))
  rw [← h1]
  exact (Finset.sum_subset hsub' h0).symm

/-- The sum of one row of the month × category pivot over every category
column equals the total number of records of that month. -/
theorem pivotRowSum_eq_countMonth (l : List FutRec) (m : Nat) :
    pivotRowSum l m = countMonth l m := by
  classical
  have hentry : ∀ c, pivotEntry l m c =
      ((l.filter (fun r => r.simulated_month == m)).map
        FutRec.predicted_crime_type).count c := by
    intro c
    unfold pivotEntry
    rw [List.count_eq_countP, List.countP_map, List.countP_filter]
    refine List.countP_congr (fun r _ => ?_)
    simp [Function.comp, Bool.and_comm]
  unfold pivotRowSum
  rw [Finset.sum_congr rfl (fun c _ => hentry c)]
  rw [sum_count_eq_length _ _ (fun c hc => ?_)]
  · rw [List.length_map]
    unfold countMonth
    rw [List.countP_eq_length_filter]
  · obtain ⟨r, hr, rfl⟩ := List.mem_map.mp hc
    exact List.mem_toFinset.mpr
      (List.mem_map.mpr ⟨r, List.mem_of_mem_filter hr, rfl⟩)

theorem head?_zipWith {α β γ : Type} {f : α → β → γ} {l1 : List α}
    {l2 : List β} {a : α} {b : β} (h1 : l1.head? = some a)
    (h2 : l2.head? = some b) : (List.zipWith f l1 l2).head? = some (f a b) := by
  cases l1 with
  | nil => cases h1
  | cons x xs =>
    cases l2 with
    | nil => cases h2
    | cons y ys =>
      cases h1
      cases h2
      rfl

theorem head?_zip {α β : Type} {l1 : List α} {l2 : List β} {a : α} {b : β}
    (h1 : l1.head? = some a) (h2 : l2.head? = some b) :
    (l1.zip l2).head? = some (a, b) := head?_zipWith h1 h2

/-- Everything the claims need about one batch of the period loop, for the
state `train_model` actually returns: the batch is produced (no error),
holds exactly 5000 records, every record carries the month tag and sampled
coordinates inside the training bounding box, and the first record's
sampled longitude is the first draw off the generator. -/
theorem makeBatch_spec (g : RandGen) (sq : ℚ → ℚ)
    (fc : List EncRow → List Nat → RFModel) (rows : List MRow) (m s0 : Nat)
    (h : dfModelRows rows ≠ [])
    (hp : ∀ x, (trainOutCore sq fc rows).rf.predict x <
      (trainOutCore sq fc rows).leTarget.length) :
    ∃ recs s',
      makeBatch g (trainOutCore sq fc rows) m s0 = .ok (recs, s') ∧
      recs.length = 5000 ∧
      (∀ r ∈ recs, r.simulated_month = m ∧
        qminL (lonsOf (trainOutCore sq fc rows).dfModel) ≤ r.lonSampled ∧
        r.lonSampled ≤ qmaxL (lonsOf (trainOutCore sq fc rows).dfModel) ∧
        qminL (latsOf (trainOutCore sq fc rows).dfModel) ≤ r.latSampled ∧
        r.latSampled ≤ qmaxL (latsOf (trainOutCore sq fc rows).dfModel)) ∧
      recs.head?.map FutRec.lonSampled = some
        (qminL (lonsOf (trainOutCore sq fc rows).dfModel) +
          (qmaxL (lonsOf (trainOutCore sq fc rows).dfModel) -
            qminL (lonsOf (trainOutCore sq fc rows).dfModel)) *
          g.frac (g.step s0)) := by
  set st := trainOutCore sq fc rows with hst
  have hdm : st.dfModel ≠ [] := by
    show collapseRows (dfModelRows rows) ≠ []
    intro he
    exact h (List.map_eq_nil_iff.mp (by rw [collapseRows] at he; exact he))
  have hcolRB : st.dfModel.map MRow.reported_by ≠ [] :=
    fun he => hdm (List.map_eq_nil_iff.mp he)
  have hcolFW : st.dfModel.map MRow.falls_within ≠ [] :=
    fun he => hdm (List.map_eq_nil_iff.mp he)
  have hcolLOC : st.dfModel.map MRow.last_outcome_category ≠ [] :=
    fun he => hdm (List.map_eq_nil_iff.mp he)
  have hlonne : lonsOf st.dfModel ≠ [] := by
    unfold lonsOf
    intro he
    exact hdm (List.map_eq_nil_iff.mp (List.map_eq_nil_iff.mp he))
  have hlatne : latsOf st.dfModel ≠ [] := by
    unfold latsOf
    intro he
    exact hdm (List.map_eq_nil_iff.mp (List.map_eq_nil_iff.mp he))
  have hlonle := qminL_le_qmaxL hlonne
  have hlatle := qminL_le_qmaxL hlatne
  obtain ⟨vrb, hmrb, hvrb⟩ := pdModeHead_ok hcolRB
  obtain ⟨vfw, hmfw, hvfw⟩ := pdModeHead_ok hcolFW
  obtain ⟨vloc, hmloc, hvloc⟩ := pdModeHead_ok hcolLOC
  have hRB : st.leRB = leFit (st.dfModel.map MRow.reported_by) := rfl
  have hFW : st.leFW = leFit (st.dfModel.map MRow.falls_within) := rfl
  have hLOC : st.leLOC = leFit (st.dfModel.map MRow.last_outcome_category) := rfl
  obtain ⟨irb, hirb, -⟩ := leTransform_ok_of_mem hvrb
  obtain ⟨ifw, hifw, -⟩ := leTransform_ok_of_mem hvfw
  obtain ⟨iloc, hiloc, -⟩ := leTransform_ok_of_mem hvloc
  have htrb : mapME (leTransform st.leRB) (List.replicate 5000 vrb) =
      .ok (List.replicate 5000 irb) := by
    rw [hRB]
    exact mapME_replicate hirb 5000
  have htfw : mapME (leTransform st.leFW) (List.replicate 5000 vfw) =
      .ok (List.replicate 5000 ifw) := by
    rw [hFW]
    exact mapME_replicate hifw 5000
  have htloc : mapME (leTransform st.leLOC) (List.replicate 5000 vloc) =
      .ok (List.replicate 5000 iloc) := by
    rw [hLOC]
    exact mapME_replicate hiloc 5000
  rcases hU1 : uniformDraws g (qminL (lonsOf st.dfModel))
      (qmaxL (lonsOf st.dfModel)) 5000 s0 with ⟨lons, s1⟩
  rcases hU2 : uniformDraws g (qminL (latsOf st.dfModel))
      (qmaxL (latsOf st.dfModel)) 5000 s1 with ⟨lats, s2⟩
  have hlonlen : lons.length = 5000 := by
    have hq := uniformDraws_length g (qminL (lonsOf st.dfModel))
      (qmaxL (lonsOf st.dfModel)) 5000 s0
    rw [hU1] at hq
    exact hq
  have hlatlen : lats.length = 5000 := by
    have hq := uniformDraws_length g (qminL (latsOf st.dfModel))
      (qmaxL (latsOf st.dfModel)) 5000 s1
    rw [hU2] at hq
    exact hq
  have hlonbd : ∀ x ∈ lons, qminL (lonsOf st.dfModel) ≤ x ∧
      x ≤ qmaxL (lonsOf st.dfModel) := by
    have hq := uniformDraws_bounds g hlonle 5000 s0
    rw [hU1] at hq
    exact hq
  have hlatbd : ∀ x ∈ lats, qminL (latsOf st.dfModel) ≤ x ∧
      x ≤ qmaxL (latsOf st.dfModel) := by
    have hq := uniformDraws_bounds g hlatle 5000 s1
    rw [hU2] at hq
    exact hq
  have hlonhead : lons.head? = some
      (qminL (lonsOf st.dfModel) +
        (qmaxL (lonsOf st.dfModel) -
          qminL (lonsOf st.dfModel)) * g.frac (g.step s0)) := by
    have h1 := hU1
    rw [show (5000 : Nat) = 4999 + 1 by norm_num, uniformDraws_succ,
      Prod.mk.injEq] at h1
    rw [← h1.1]
    rfl
  obtain ⟨cats, hcats, hcatlen⟩ := mapME_ok_of_forall
    (f := leInverse st.leTarget)
    (l := ((lons.zip lats).zip (((List.replicate 5000 irb).zip
      (List.replicate 5000 ifw)).zip (List.replicate 5000 iloc))).map
        (fun c => st.rf.predict (encOfRec st c)))
    (fun p hp' => by
      obtain ⟨c, -, rfl⟩ := List.mem_map.mp hp'
      exact leInverse_ok_of_lt (hp (encOfRec st c)))
  have hcombolen :
      ((lons.zip lats).zip (((List.replicate 5000 irb).zip
        (List.replicate 5000 ifw)).zip (List.replicate 5000 iloc))).length = 5000 := by
    rw [List.length_zip, List.length_zip, List.length_zip, List.length_zip,
      List.length_replicate, List.length_replicate, List.length_replicate,
      hlonlen, hlatlen]
    omega
  refine ⟨List.zipWith (mkFutRec st m)
      ((lons.zip lats).zip (((List.replicate 5000 irb).zip
        (List.replicate 5000 ifw)).zip (List.replicate 5000 iloc))) cats,
    s2, ?_, ?_, ?_, ?_⟩
  · unfold makeBatch
    simp only [hU1, hU2, hmrb, hmfw, hmloc, htrb, htfw, htloc, hcats]
  · rw [List.length_zipWith, hcatlen, List.length_map, hcombolen]
    omega
  · refine forall_mem_zipWith (fun c hc cat hcat => ?_)
    obtain ⟨⟨lon, lat⟩, ⟨⟨rb, fw⟩, lc⟩⟩ := c
    have hc1 := (List.of_mem_zip hc).1
    have hlon := (List.of_mem_zip hc1).1
    have hlat := (List.of_mem_zip hc1).2
    exact ⟨rfl, (hlonbd lon hlon).1, (hlonbd lon hlon).2,
      (hlatbd lat hlat).1, (hlatbd lat hlat).2⟩
  · have hlath : ∃ b, lats.head? = some b := by
      cases lats with
      | nil => simp at hlatlen
      | cons x xs => exact ⟨x, rfl⟩
    obtain ⟨lat0, hlath⟩ := hlath
    have hcatlen' : cats.length = 5000 := by
      rw [hcatlen, List.length_map, hcombolen]
    have hcath : ∃ b, cats.head? = some b := by
      cases cats with
      | nil => simp at hcatlen'
      | cons x xs => exact ⟨x, rfl⟩
    obtain ⟨cat0, hcath⟩ := hcath
    have hrep : ∀ x : Nat, (List.replicate 5000 x).head? = some x := fun _ => rfl
    rw [head?_zipWith (head?_zip (head?_zip hlonhead hlath)
      (head?_zip (head?_zip (hrep irb) (hrep ifw)) (hrep iloc))) hcath]
    rfl

/-- Shape of the whole period loop for any month list: it succeeds, each
month tag `m'` accounts for `5000 * (count of m' in the list)` records, and
every record carries an in-range month tag and in-box sampled
coordinates. -/
theorem except_bind_ok {α β : Type} (a : α) (f : α → Except String β) :
    Except.bind (.ok a) f = f a := rfl

theorem except_map_ok {α β : Type} (f : α → β) (a : α) :
    Except.map f (.ok a : Except String α) = .ok (f a) := rfl

theorem periodStep_ok (g : RandGen) (st : TrainOut) (m : Nat)
    (acc : List FutRec) (s : Nat) {b : List FutRec} {s' : Nat}
    (hb : makeBatch g st m s = .ok (b, s')) :
    periodStep g st m (.ok (acc, s)) = .ok (acc ++ b, s') := by
  unfold periodStep
  rw [except_bind_ok]
  show (makeBatch g st m s).map (fun q => (acc ++ q.1, q.2)) = .ok (acc ++ b, s')
  rw [hb, except_map_ok]

/-- Shape of the remaining loop from any accumulator: it succeeds, appends
a block whose month counts are `5000` per listed month, and every appended
record carries a listed month tag and in-box sampled coordinates. -/
theorem periodLoop_go (g : RandGen) (sq : ℚ → ℚ)
    (fc : List EncRow → List Nat → RFModel) (rows : List MRow)
    (h : dfModelRows rows ≠ [])
    (hp : ∀ x, (trainOutCore sq fc rows).rf.predict x <
      (trainOutCore sq fc rows).leTarget.length) :
    ∀ (months : List Nat) (acc : List FutRec) (s : Nat), ∃ l s',
      months.foldl (fun a m => periodStep g (trainOutCore sq fc rows) m a)
        (.ok (acc, s)) = .ok (acc ++ l, s') ∧
      (∀ m', countMonth l m' = 5000 * months.count m') ∧
      (∀ r ∈ l, r.simulated_month ∈ months ∧
        qminL (lonsOf (trainOutCore sq fc rows).dfModel) ≤ r.lonSampled ∧
        r.lonSampled ≤ qmaxL (lonsOf (trainOutCore sq fc rows).dfModel) ∧
        qminL (latsOf (trainOutCore sq fc rows).dfModel) ≤ r.latSampled ∧
        r.latSampled ≤ qmaxL (latsOf (trainOutCore sq fc rows).dfModel)) ∧
      (months ≠ [] → l.head?.map FutRec.lonSampled = some
        (qminL (lonsOf (trainOutCore sq fc rows).dfModel) +
          (qmaxL (lonsOf (trainOutCore sq fc rows).dfModel) -
            qminL (lonsOf (trainOutCore sq fc rows).dfModel)) *
          g.frac (g.step s))) := by
  intro months
  induction months with
  | nil =>
    intro acc s
    exact ⟨[], s, by simp, fun m' => by simp [countMonth],
      fun r hr => absurd hr (List.not_mem_nil r),
      fun hne => absurd rfl hne⟩
  | cons m ms ih =>
    intro acc s
    obtain ⟨recs, s', hb, hlen, hprops, hhead⟩ := makeBatch_spec g sq fc rows m s h hp
    obtain ⟨rest, s'', hrest, hcount, hmem, -⟩ := ih (acc ++ recs) s'
    refine ⟨recs ++ rest, s'', ?_, ?_, ?_, ?_⟩
    · simp only [List.foldl_cons]
      rw [periodStep_ok g (trainOutCore sq fc rows) m acc s hb, hrest,
        List.append_assoc]
    · intro m'
      unfold countMonth
      rw [List.countP_append]
      have hrc : countMonth rest m' = 5000 * ms.count m' := hcount m'
      unfold countMonth at hrc
      rw [hrc]
      by_cases hmm : m' = m
      · subst hmm
        have hall : List.countP (fun r => r.simulated_month == m') recs =
            recs.length :=
          List.countP_eq_length.mpr (fun r hr => by
            simp [(hprops r hr).1])
        rw [hall, hlen, List.count_cons]
        simp
        ring
      · have hnone : List.countP (fun r => r.simulated_month == m') recs = 0 :=
          List.countP_eq_zero.mpr (fun r hr => by
            simp [(hprops r hr).1]
            exact fun he => hmm he.symm)
        rw [hnone, List.count_cons]
        have hne : ¬(m == m') = true := by
          simp
          exact fun he => hmm he.symm
        simp [hne]
    · intro r hr
      rcases List.mem_append.mp hr with h' | h'
      · obtain ⟨hm, hb1, hb2, hb3, hb4⟩ := hprops r h'
        exact ⟨hm ▸ List.mem_cons_self _ _, hb1, hb2, hb3, hb4⟩
      · obtain ⟨hm, hb1, hb2, hb3, hb4⟩ := hmem r h'
        exact ⟨List.mem_cons_of_mem _ hm, hb1, hb2, hb3, hb4⟩
    · intro _
      obtain ⟨r0, recs', hcons⟩ : ∃ r0 recs', recs = r0 :: recs' := by
        cases recs with
        | nil => simp at hlen
        | cons x xs => exact ⟨x, xs, rfl⟩
      subst hcons
      rw [List.cons_append]
      exact hhead

/-- The whole future collection: produced without error, with the month
counts and coordinate bounds of `periodLoop_go`, and its first record's
sampled longitude is the first value the global generator yields after the
loop is entered. -/
theorem futDF_spec (g : RandGen) (sq : ℚ → ℚ)
    (fc : List EncRow → List Nat → RFModel) (rows : List MRow) (s : Nat)
    (h : dfModelRows rows ≠ [])
    (hp : ∀ x, (trainOutCore sq fc rows).rf.predict x <
      (trainOutCore sq fc rows).leTarget.length) :
    ∃ l, futDF g (trainOutCore sq fc rows) s = .ok l ∧
      (∀ m', countMonth l m' = 5000 * List.count m' [1, 2, 3, 4, 5, 6]) ∧
      (∀ r ∈ l, r.simulated_month ∈ ([1, 2, 3, 4, 5, 6] : List Nat) ∧
        qminL (lonsOf (trainOutCore sq fc rows).dfModel) ≤ r.lonSampled ∧
        r.lonSampled ≤ qmaxL (lonsOf (trainOutCore sq fc rows).dfModel) ∧
        qminL (latsOf (trainOutCore sq fc rows).dfModel) ≤ r.latSampled ∧
        r.latSampled ≤ qmaxL (latsOf (trainOutCore sq fc rows).dfModel)) ∧
      l.head?.map FutRec.lonSampled = some
        (qminL (lonsOf (trainOutCore sq fc rows).dfModel) +
          (qmaxL (lonsOf (trainOutCore sq fc rows).dfModel) -
            qminL (lonsOf (trainOutCore sq fc rows).dfModel)) *
          g.frac (g.step s)) := by
  obtain ⟨l, s', hfold, hcount, hmem, hhead⟩ :=
    periodLoop_go g sq fc rows h hp [1, 2, 3, 4, 5, 6] [] s
  have hloop : periodLoop g (trainOutCore sq fc rows) [1, 2, 3, 4, 5, 6] s =
      .ok (l, s') := by
    unfold periodLoop
    rw [hfold, List.nil_append]
  refine ⟨l, ?_, hcount, hmem, hhead (by simp)⟩
  unfold futDF
  rw [hloop]

/-! ## Claim C6 — Period coverage and pivot consistency -/

/-- C6: for the state `train_model` returns on a non-empty training subset
(and any learned decision function with in-range class ids), the future
collection is produced with exactly the period identifiers 1..6, exactly
5000 records per period, and each pivot row sums to 5000 over all
predicted categories. -/
theorem c6_period_coverage (g : RandGen) (sq : ℚ → ℚ)
    (fc : List EncRow → List Nat → RFModel) (rows : List MRow) (s : Nat)
    (h : dfModelRows rows ≠ [])
    (hp : ∀ x, (trainOutCore sq fc rows).rf.predict x <
      (trainOutCore sq fc rows).leTarget.length) :
    ∃ l, futDF g (trainOutCore sq fc rows) s = .ok l ∧
      (∀ m, 1 ≤ m → m ≤ 6 → countMonth l m = 5000) ∧
      (∀ r ∈ l, 1 ≤ r.simulated_month ∧ r.simulated_month ≤ 6) ∧
      (∀ m, 1 ≤ m → m ≤ 6 → pivotRowSum l m = 5000) := by
  obtain ⟨l, hok, hcount, hmem, -⟩ := futDF_spec g sq fc rows s h hp
  have hc : ∀ m, 1 ≤ m → m ≤ 6 → countMonth l m = 5000 := by
    intro m h1 h6
    interval_cases m <;> rw [hcount] <;> decide
  refine ⟨l, hok, hc, ?_, ?_⟩
  · intro r hr
    have h6 := (hmem r hr).1
    simp only [List.mem_cons, List.not_mem_nil, or_false] at h6
    rcases h6 with h' | h' | h' | h' | h' | h' <;> omega
  · intro m h1 h6
    rw [pivotRowSum_eq_countMonth]
    exact hc m h1 h6

/-- The abstract global generator used by concrete witnesses. -/
def gW : RandGen where
  step := fun s => s + 1
  frac := fun _ => 0
  frac_nonneg := fun _ => le_refl 0
  frac_lt_one := fun _ => zero_lt_one

/-- Witness for C6 at a concrete one-record training subset, an abstract
generator and the constant-0 decision function. -/
theorem c6_witness :
    dfModelRows [rBurg] ≠ [] ∧
    (∀ x, (trainOutCore sqW fcW [rBurg]).rf.predict x <
      (trainOutCore sqW fcW [rBurg]).leTarget.length) ∧
    (∃ l, futDF gW (trainOutCore sqW fcW [rBurg]) 0 = .ok l ∧
      (∀ m, 1 ≤ m → m ≤ 6 → countMonth l m = 5000) ∧
      (∀ r ∈ l, 1 ≤ r.simulated_month ∧ r.simulated_month ≤ 6) ∧
      (∀ m, 1 ≤ m → m ≤ 6 → pivotRowSum l m = 5000)) := by
  have h : dfModelRows [rBurg] ≠ [] := by simp [dfModelRows, rBurg]
  have hp : ∀ x, (trainOutCore sqW fcW [rBurg]).rf.predict x <
      (trainOutCore sqW fcW [rBurg]).leTarget.length := by
    intro x
    show (0 : Nat) < (trainOutCore sqW fcW [rBurg]).leTarget.length
    decide
  exact ⟨h, hp, c6_period_coverage gW sqW fcW [rBurg] 0 h hp⟩

/-! ## Claim C7 — Bounding-box containment -/

/-- C7: every synthetic record's sampled latitude and longitude lie within
the closed bounding box of the training subset's observed coordinate
extremes. -/
theorem c7_bounding_box (g : RandGen) (sq : ℚ → ℚ)
    (fc : List EncRow → List Nat → RFModel) (rows : List MRow) (s : Nat)
    (h : dfModelRows rows ≠ [])
    (hp : ∀ x, (trainOutCore sq fc rows).rf.predict x <
      (trainOutCore sq fc rows).leTarget.length) :
    ∃ l, futDF g (trainOutCore sq fc rows) s = .ok l ∧
      ∀ r ∈ l,
        qminL (lonsOf (trainOutCore sq fc rows).dfModel) ≤ r.lonSampled ∧
        r.lonSampled ≤ qmaxL (lonsOf (trainOutCore sq fc rows).dfModel) ∧
        qminL (latsOf (trainOutCore sq fc rows).dfModel) ≤ r.latSampled ∧
        r.latSampled ≤ qmaxL (latsOf (trainOutCore sq fc rows).dfModel) := by
  obtain ⟨l, hok, -, hmem, -⟩ := futDF_spec g sq fc rows s h hp
  exact ⟨l, hok, fun r hr => ⟨(hmem r hr).2.1, (hmem r hr).2.2.1,
    (hmem r hr).2.2.2.1, (hmem r hr).2.2.2.2⟩⟩

/-- Witness for C7 at the same concrete input as `c6_witness`. -/
theorem c7_witness :
    dfModelRows [rBurg] ≠ [] ∧
    (∃ l, futDF gW (trainOutCore sqW fcW [rBurg]) 0 = .ok l ∧
      ∀ r ∈ l,
        qminL (lonsOf (trainOutCore sqW fcW [rBurg]).dfModel) ≤ r.lonSampled ∧
        r.lonSampled ≤ qmaxL (lonsOf (trainOutCore sqW fcW [rBurg]).dfModel) ∧
        qminL (latsOf (trainOutCore sqW fcW [rBurg]).dfModel) ≤ r.latSampled ∧
        r.latSampled ≤ qmaxL (latsOf (trainOutCore sqW fcW [rBurg]).dfModel)) := by
  have h : dfModelRows [rBurg] ≠ [] := by simp [dfModelRows, rBurg]
  have hp : ∀ x, (trainOutCore sqW fcW [rBurg]).rf.predict x <
      (trainOutCore sqW fcW [rBurg]).leTarget.length := by
    intro x
    show (0 : Nat) < (trainOutCore sqW fcW [rBurg]).leTarget.length
    decide
  exact ⟨h, c7_bounding_box gW sqW fcW [rBurg] 0 h hp⟩

/-! ## Claim C1 — No seed is set; determinism holds only per generator state

The source calls `np.random.uniform` without ever seeding the global
generator, so the collection a run produces is a deterministic function of
the generator state the process happens to hold at loop entry — equal
states give identical collections, different states can give different
ones. -/

/-- C1 (amended): the future collection is a deterministic function of the
generator and its entry state — two runs over the same training output
from the same generator state produce identical collections. -/
theorem c1_state_determinism (g : RandGen) (st : TrainOut) (s₁ s₂ : Nat)
    (h : s₁ = s₂) : futDF g st s₁ = futDF g st s₂ := by
  rw [h]

/-- Witness for C1 (amended) at a concrete state. -/
theorem c1_witness :
    (0 : Nat) = 0 ∧
    futDF gW (trainOutCore sqW fcW [rBurg]) 0 =
      futDF gW (trainOutCore sqW fcW [rBurg]) 0 :=
  ⟨rfl, c1_state_determinism gW (trainOutCore sqW fcW [rBurg]) 0 0 rfl⟩

/-- A generator whose output depends on its state: even states yield 0,
odd states yield 1/2. -/
def gC : RandGen where
  step := fun s => s + 1
  frac := fun s => if s % 2 = 0 then 0 else 1 / 2
  frac_nonneg := by
    intro s
    show (0 : ℚ) ≤ if s % 2 = 0 then 0 else 1 / 2
    split <;> norm_num
  frac_lt_one := by
    intro s
    show (if s % 2 = 0 then (0 : ℚ) else 1 / 2) < 1
    split <;> norm_num

/-- Counterexample to C1 as stated: with no seed ever set, two runs of the
period loop over the same training subset but different ambient generator
states produce different future collections (their first sampled
longitudes differ), so the loop is not reproducible by a per-run seed. -/
theorem c1_counterexample :
    futDF gC (trainOutCore sqW fcW [rBurg, rVand]) 0 ≠
      futDF gC (trainOutCore sqW fcW [rBurg, rVand]) 1 := by
  have h : dfModelRows [rBurg, rVand] ≠ [] := by
    simp [dfModelRows, rBurg, rVand]
  have hp : ∀ x, (trainOutCore sqW fcW [rBurg, rVand]).rf.predict x <
      (trainOutCore sqW fcW [rBurg, rVand]).leTarget.length := by
    intro x
    show (0 : Nat) < (trainOutCore sqW fcW [rBurg, rVand]).leTarget.length
    decide
  obtain ⟨l₁, hok₁, -, -, hh₁⟩ := futDF_spec gC sqW fcW [rBurg, rVand] 0 h hp
  obtain ⟨l₂, hok₂, -, -, hh₂⟩ := futDF_spec gC sqW fcW [rBurg, rVand] 1 h hp
  have hcol : lonsOf (trainOutCore sqW fcW [rBurg, rVand]).dfModel =
      [0, 1] := rfl
  have hmin : qminL (lonsOf (trainOutCore sqW fcW [rBurg, rVand]).dfModel) = 0 := by
    rw [hcol]
    show min (0 : ℚ) 1 = 0
    exact min_eq_left zero_le_one
  have hmax : qmaxL (lonsOf (trainOutCore sqW fcW [rBurg, rVand]).dfModel) = 1 := by
    rw [hcol]
    show max (0 : ℚ) 1 = 1
    exact max_eq_right zero_le_one
  rw [hmin, hmax] at hh₁ hh₂
  have hf1 : gC.frac (gC.step 0) = 1 / 2 := by
    show (if (1 : Nat) % 2 = 0 then (0 : ℚ) else 1 / 2) = 1 / 2
    norm_num
  have hf2 : gC.frac (gC.step 1) = 0 := by
    show (if (2 : Nat) % 2 = 0 then (0 : ℚ) else 1 / 2) = 0
    norm_num
  rw [hf1] at hh₁
  rw [hf2] at hh₂
  intro heq
  rw [hok₁, hok₂] at heq
  injection heq with hl
  rw [hl] at hh₁
  have hsome := hh₁.symm.trans hh₂
  have hval := Option.some.inj hsome
  norm_num at hval

end CrimeApp
